import Mathlib

/-!
Verification development for the `ngx-strong-forms` library: a statically
typed facade over Angular's reactive form controls.  The TypeScript sources
are shallowly embedded below: the compile-time `ValueType` deriver becomes a
function on a deep grammar of TypeScript types, the validator composition
helpers become functions on association-list error maps, and the mutable
wrapper/control tree becomes explicit state passing over an id-indexed store.
-/

/-! ## The deep grammar of the TypeScript types that `ValueType` analyses

`ValueType<T>` (src/utilities.ts) is a conditional type dispatching on the
four wrapper classes, then on plain object types, with a `never` fallback.
We embed the types it is applied to (and the types it produces) as one
inductive grammar.  `prim` stands for a primitive such as `number` or
`string`; `nullable t` is the union `t | null`; `seq t` is `t[]`;
`mapStr t` is `Map<string, t>`; `record t` is the index-signature object
type `{ [key: string]: t }`; `obj` is a plain object type with named
fields; `neverTy` is TypeScript's `never`. -/
inductive TsTy where
  | prim (name : String)
  | nullable (t : TsTy)
  | seq (t : TsTy)
  | mapStr (t : TsTy)
  | record (t : TsTy)
  | obj (fields : List (String × TsTy))
  | formArray (elt : TsTy)
  | formControl (val : TsTy)
  | formDictionary (elt : TsTy)
  | formGroup (fields : List (String × TsTy))
  | neverTy
deriving Repr

/-- The value-type deriver exactly as written in `src/utilities.ts`:

`type ValueType<T> =`
`  T extends TypedFormArray<infer U> ? U[]`
`  : T extends TypedFormControl<infer U> ? U`
`  : T extends TypedFormDictionary<infer U> ? Map<string, U>`
`  : T extends TypedFormGroup<infer U> ? \x7b [P in keyof U]: ValueType<U[P]> \x7d`
`  : T extends \x7b\x7d ? \x7b [P in keyof T]: ValueType<T[P]> \x7d`
`  : never;`

Note that the `TypedFormArray` and `TypedFormDictionary` branches return the
inferred element type `U` unconverted (no recursive `ValueType<U>`), and the
dictionary branch produces a `Map`.  The non-wrapper cases land in the
`T extends \x7b\x7d` branch: for a plain object type the homomorphic mapped type
maps every field; applied to a primitive it returns the primitive unchanged,
applied to an array type it maps the element type, and applied to an index
signature object it maps the value type (TypeScript's homomorphic mapped
type behaviour); a `Map` type is left unchanged (its structural members are
never node types, and no use in the library reaches this case).  `null`
(and so the `null` arm of a union, by distributivity of conditional types)
falls through every branch to `never`. -/
def ValueType : TsTy → TsTy
  | .formArray u => .seq u
  | .formControl u => u
  | .formDictionary u => .mapStr u
  | .formGroup fields => .obj (fields.attach.map fun kv => match kv with | ⟨(k, v), hm⟩ => (k, ValueType v))
  | .obj fields => .obj (fields.attach.map fun kv => match kv with | ⟨(k, v), hm⟩ => (k, ValueType v))
  | .prim n => .prim n
  | .seq t => .seq (ValueType t)
  | .mapStr t => .mapStr t
  | .record t => .record (ValueType t)
  | .nullable t => .nullable (ValueType t)
  | .neverTy => .neverTy
decreasing_by
  all_goals
    simp only [TsTy.formGroup.sizeOf_spec, TsTy.obj.sizeOf_spec, TsTy.seq.sizeOf_spec,
      TsTy.record.sizeOf_spec, TsTy.nullable.sizeOf_spec, TsTy.formArray.sizeOf_spec,
      TsTy.formDictionary.sizeOf_spec, TsTy.formControl.sizeOf_spec, TsTy.mapStr.sizeOf_spec]
  all_goals
    first
      | omega
      | (have h1 := List.sizeOf_lt_of_mem hm
         simp only [Prod.mk.sizeOf_spec] at h1
         omega)

/-- The value-type derivation as the specification words it (section 4.1),
which is also literally the variant shipped in the legacy copy of the
library: the `Array` case yields a sequence of recursively derived element
values (`ValueType<U>[]`), the `Dictionary` case a string-keyed mapping of
recursively derived element values (`\x7b [key: string]: ValueType<U> \x7d`), the
leaf case the leaf's value type, and groups and plain objects are mapped
field by field.  The specification allows the leaf case to be `T` or
`T | null`; we pick `T`, matching `src/utilities.ts`, so that any difference
between the two functions comes from the array/dictionary cases alone. -/
def ValueTypeSpec : TsTy → TsTy
  | .formArray u => .seq (ValueTypeSpec u)
  | .formControl u => u
  | .formDictionary u => .record (ValueTypeSpec u)
  | .formGroup fields => .obj (fields.attach.map fun kv => match kv with | ⟨(k, v), hm⟩ => (k, ValueTypeSpec v))
  | .obj fields => .obj (fields.attach.map fun kv => match kv with | ⟨(k, v), hm⟩ => (k, ValueTypeSpec v))
  | .prim n => .prim n
  | .seq t => .seq (ValueTypeSpec t)
  | .mapStr t => .mapStr t
  | .record t => .record (ValueTypeSpec t)
  | .nullable t => .nullable (ValueTypeSpec t)
  | .neverTy => .neverTy
decreasing_by
  all_goals
    simp only [TsTy.formGroup.sizeOf_spec, TsTy.obj.sizeOf_spec, TsTy.seq.sizeOf_spec,
      TsTy.record.sizeOf_spec, TsTy.nullable.sizeOf_spec, TsTy.formArray.sizeOf_spec,
      TsTy.formDictionary.sizeOf_spec, TsTy.formControl.sizeOf_spec, TsTy.mapStr.sizeOf_spec]
  all_goals
    first
      | omega
      | (have h1 := List.sizeOf_lt_of_mem hm
         simp only [Prod.mk.sizeOf_spec] at h1
         omega)

/-! ## JavaScript values

Plain JavaScript data as it flows through `.value`, `setValue` and error
maps: `null`, booleans, numbers (restricted to integers; floating point is
out of scope for the properties below), strings, arrays, and plain objects
as insertion-ordered association lists with distinct keys. -/
inductive JsVal where
  | null
  | bool (b : Bool)
  | num (n : Int)
  | str (s : String)
  | arr (elems : List JsVal)
  | obj (fields : List (String × JsVal))
deriving Repr

/-! ## Validator composition (validators.ts)

A typed validator takes the wrapper control and returns either `null` or an
error map.  The wrapper control itself is opaque to composition, so it is
modelled by an id. -/

/-- An Angular `ValidationErrors` object: an error-code-keyed JS object. -/
abbrev ValidationErrors := List (String × JsVal)

abbrev CtrlId := Nat

/-- `TypedValidatorFn<T>`: a function from the control to errors-or-null. -/
abbrev TypedValidatorFn := CtrlId → Option ValidationErrors

/-- Assignment of one key in a JS object: an existing key keeps its position
and gets the new value, a new key is appended (JS insertion order).  Source
objects never carry duplicate keys; on such inputs only the first occurrence
is updated. -/
def setKey : List (String × JsVal) → String → JsVal → List (String × JsVal)
  | [], k, v => [(k, v)]
  | (k', v') :: rest, k, v =>
      if k' = k then (k, v) :: rest else (k', v') :: setKey rest k v

/-- The JS object spread `{...a, ...b}`: every key of `b` is assigned into
`a` in order, so keys of `b` override equal keys of `a`. -/
def spread (a b : List (String × JsVal)) : List (String × JsVal) :=
  b.foldl (fun acc kv => setKey acc kv.1 kv.2) a

/-- The fold inside `mergeErrors` (factored out so the theorems below can
speak about the folded object): starting from `{}`, each non-null result is
spread over the accumulator left to right. -/
def foldErrors (arrayOfErrors : List (Option ValidationErrors)) : ValidationErrors :=
  arrayOfErrors.foldl
    (fun res errors => match errors with
      | some e => spread res e
      | none => res) []

/-- `mergeErrors` from validators.ts: a left-to-right fold of
`res = errors != null ? {...res, ...errors} : res` over the array of
results, returning `null` when the folded object has no keys. -/
def mergeErrors (arrayOfErrors : List (Option ValidationErrors)) : Option ValidationErrors :=
  let res := foldErrors arrayOfErrors
  if res.isEmpty then none else some res

/-- `TypedValidators.compose`: `null` in, `null` out; drop absent entries;
`null` for an empty list; otherwise one validator merging the individual
results (`executeValidators` maps application over the list). -/
def TypedValidators.compose (validators : Option (List (Option TypedValidatorFn))) :
    Option TypedValidatorFn :=
  match validators with
  | none => none
  | some vs =>
    let presentValidators := vs.filterMap id
    if presentValidators.isEmpty then none
    else some fun control => mergeErrors (presentValidators.map (fun v => v control))

/-- An rxjs observable as async validation sees it: the (virtual) time at
which it completes together with the error-map-or-null it finally emits. -/
structure Obs where
  settle : Nat
  result : Option ValidationErrors

/-- `TypedAsyncValidatorFn<T>`: from the control to an observable result.
Promise results are subsumed: `toObservable` converts them to observables
without changing settlement or value. -/
abbrev TypedAsyncValidatorFn := CtrlId → Obs

/-- `TypedValidators.composeAsync`: drop absent entries; `null` for an empty
list; otherwise issue every validator, join with `forkJoin` (which completes
once all sources have, i.e. at the latest settlement time, emitting the list
of final values) and merge with `mergeErrors`. -/
def TypedValidators.composeAsync (validators : List (Option TypedAsyncValidatorFn)) :
    Option TypedAsyncValidatorFn :=
  let presentValidators := validators.filterMap id
  if presentValidators.isEmpty then none
  else some fun control =>
    let observables := presentValidators.map (fun v => v control)
    { settle := (observables.map (fun o => o.settle)).foldl max 0
      result := mergeErrors (observables.map (fun o => o.result)) }

/-! ## Duck-typed async results (toObservable, isPromise, isSubscribable)

`toObservable` receives whatever an async validator returned, typed `any`.
Such a value is `nullish` (null/undefined: falsy, no members), a primitive
(possibly truthy, but `.then`/`.subscribe` are never functions on it), or an
object (always truthy) that may or may not carry callable `then` /
`subscribe` members. -/
inductive JsAny where
  | nullish
  | primVal (truthy : Bool)
  | objVal (hasThen : Bool) (hasSubscribe : Bool)

def JsAny.truthy : JsAny → Bool
  | .nullish => false
  | .primVal t => t
  | .objVal _ _ => true

def JsAny.hasCallableThen : JsAny → Bool
  | .objVal t _ => t
  | _ => false

def JsAny.hasCallableSubscribe : JsAny → Bool
  | .objVal _ s => s
  | _ => false

/-- `isPromise` from validators.ts: `!!obj && typeof obj.then === 'function'`. -/
def isPromise (obj : JsAny) : Bool := obj.truthy && obj.hasCallableThen

/-- `isSubscribable` from validators.ts:
`!!obj && typeof obj.subscribe === 'function'`. -/
def isSubscribable (obj : JsAny) : Bool := obj.truthy && obj.hasCallableSubscribe

/-- `isObservable` is declared as `isSubscribable` with a narrower type. -/
def isObservable (obj : JsAny) : Bool := isSubscribable obj

/-- rxjs `from` applied to a promise-like: yields an `Observable`, an object
with a callable `subscribe` (and no callable `then`). -/
def fromPromise (_ : JsAny) : JsAny := .objVal false true

/-- `toObservable` from validators.ts: convert a promise-like with `from`,
pass an observable-like through, throw on anything else. -/
def toObservable (r : JsAny) : Except String JsAny :=
  let obs := if isPromise r then fromPromise r else r
  if !(isObservable obs) then .error "Expected validator to return Promise or Observable."
  else .ok obs

/-! ## The runtime control tree: `.value` and `setValue` (C7)

Every wrapper forwards `setValue` and `.value` 1:1 to its underlying
control: `setValue(value, options) { this.ng.setValue(value, options) }` and
`get value() { return this.ng.value }` in all four classes.  The round-trip
behaviour is therefore that of the runtime control tree, which the
specification treats as an external collaborator (section 6).  Modelled from
the spec: the host framework's control tree — a leaf `FormControl` holding a
value, a `FormGroup` of named children (backing both the Fixed Group and the
Dictionary wrappers), and a `FormArray` of ordered children — with the
framework's documented `value`/`setValue` semantics: `value` of a leaf is
its stored value; `value` of a group (resp. array) collects the values of
children that are enabled (or all of them when the group itself is
disabled); `setValue` on a leaf stores the value; `setValue` on a group
requires a value for every child and rejects unknown keys, then sets each
child; `setValue` on an array does the same positionally. -/
inductive NgTree where
  | control (value : JsVal) (disabled : Bool)
  | group (children : List (String × NgTree)) (disabled : Bool)
  | array (children : List NgTree) (disabled : Bool)

def NgTree.isDisabled : NgTree → Bool
  | .control _ d => d
  | .group _ d => d
  | .array _ d => d

/-- `control.enabled`: the control is not in status `DISABLED`. -/
def NgTree.enabled (t : NgTree) : Bool := !t.isDisabled

/-- Property read `value[name]` on a JS value: only object properties are
needed by the control tree (no use reaches array indices or prototype
members, which read as absent here). -/
def jsGet (v : JsVal) (k : String) : Option JsVal :=
  match v with
  | .obj fields => fields.lookup k
  | _ => none

/-- `Object.keys(value)`: field names of an object, index strings of an
array, nothing for primitives. -/
def jsKeys : JsVal → List String
  | .obj fields => fields.map Prod.fst
  | .arr xs => (List.range xs.length).map toString
  | _ => []

mutual

/-- `AbstractControl.value` of the modelled control tree.  A group collects
`(name, child.value)` for children with `child.enabled || this.disabled`, an
array does the same positionally. -/
def ngValue : NgTree → JsVal
  | .control v _ => v
  | .group children d => .obj (ngValueChildrenG children d)
  | .array children d => .arr (ngValueChildrenA children d)

def ngValueChildrenG : List (String × NgTree) → Bool → List (String × JsVal)
  | [], _ => []
  | (k, c) :: rest, d =>
      if c.enabled || d then (k, ngValue c) :: ngValueChildrenG rest d
      else ngValueChildrenG rest d

def ngValueChildrenA : List NgTree → Bool → List JsVal
  | [], _ => []
  | c :: rest, d =>
      if c.enabled || d then ngValue c :: ngValueChildrenA rest d
      else ngValueChildrenA rest d

end

/-- The group half of `_checkAllValuesPresent`: every registered control
name must be present in the supplied value, else
`Must supply a value for form control with name: ...` is thrown. -/
def checkAllValuesPresent (v : JsVal) : List (String × NgTree) → Except String Unit
  | [] => .ok ()
  | (k, _) :: rest =>
      match jsGet v k with
      | none => .error ("Must supply a value for form control with name: " ++ k)
      | some _ => checkAllValuesPresent v rest

/-- `_throwIfControlMissing` applied to each key of the supplied value:
a key without a registered control throws
`Cannot find form control with name: ...`. -/
def checkNoMissingControls (children : List (String × NgTree)) : List String → Except String Unit
  | [] => .ok ()
  | k :: rest =>
      if (children.lookup k).isSome then checkNoMissingControls children rest
      else .error ("Cannot find form control with name: " ++ k)

mutual

/-- `setValue` of the modelled control tree.  A leaf stores the value.  A
group first checks that every control has a value and that every value key
has a control, then sets each child from its entry (the framework iterates
the value's keys; after the two key-set checks this updates exactly the same
children, so we traverse them in control order).  An array requires a value
for every index and rejects extra indices, then sets children positionally
(a non-array argument is a type error at the `value.forEach` call). -/
def ngSetValue : NgTree → JsVal → Except String NgTree
  | .control _ d, v => .ok (.control v d)
  | .group children d, v =>
      match checkAllValuesPresent v children with
      | .error e => .error e
      | .ok _ =>
        match checkNoMissingControls children (jsKeys v) with
        | .error e => .error e
        | .ok _ =>
          match ngSetValueChildrenG v children with
          | .error e => .error e
          | .ok children2 => .ok (.group children2 d)
  | .array children d, v =>
      match v with
      | .arr vs =>
          if vs.length < children.length then
            .error "Must supply a value for form control at index"
          else if children.length < vs.length then
            .error "Cannot find form control at index"
          else
            match ngSetValueChildrenA vs children with
            | .error e => .error e
            | .ok children2 => .ok (.array children2 d)
      | _ => .error "TypeError: value.forEach is not a function"

def ngSetValueChildrenG (v : JsVal) : List (String × NgTree) → Except String (List (String × NgTree))
  | [] => .ok []
  | (k, c) :: rest =>
      match ngSetValue c ((jsGet v k).getD .null) with
      | .error e => .error e
      | .ok c2 =>
        match ngSetValueChildrenG v rest with
        | .error e => .error e
        | .ok rest2 => .ok ((k, c2) :: rest2)

def ngSetValueChildrenA : List JsVal → List NgTree → Except String (List NgTree)
  | [], [] => .ok []
  | v :: vs, c :: cs =>
      match ngSetValue c v with
      | .error e => .error e
      | .ok c2 =>
        match ngSetValueChildrenA vs cs with
        | .error e => .error e
        | .ok cs2 => .ok (c2 :: cs2)
  | _, _ => .ok []

end

mutual

/-- A value of a node's derived value shape: any value for a leaf; for a
group an object whose fields line up with the children, name for name and
recursively in value (fields taken in the node's declaration order, the
canonical layout of the derived object type); for an array a sequence of
matching length, position by position. -/
def conforms : NgTree → JsVal → Bool
  | .control _ _, _ => true
  | .group children _, v =>
      match v with
      | .obj fields => conformsG children fields
      | _ => false
  | .array children _, v =>
      match v with
      | .arr vs => conformsA children vs
      | _ => false

def conformsG : List (String × NgTree) → List (String × JsVal) → Bool
  | [], [] => true
  | (k, c) :: cs, (k2, v) :: vs => k == k2 && conforms c v && conformsG cs vs
  | _, _ => false

def conformsA : List NgTree → List JsVal → Bool
  | [], [] => true
  | c :: cs, v :: vs => conforms c v && conformsA cs vs
  | _, _ => false

end

mutual

/-- Every control in the tree is enabled — the state every tree built by the
four constructors is in (nothing has called `disable()`). -/
def allEnabled : NgTree → Bool
  | .control _ d => !d
  | .group children d => !d && allEnabledG children
  | .array children d => !d && allEnabledA children

def allEnabledG : List (String × NgTree) → Bool
  | [] => true
  | (_, c) :: rest => allEnabled c && allEnabledG rest

def allEnabledA : List NgTree → Bool
  | [] => true
  | c :: rest => allEnabled c && allEnabledA rest

end

/-- Distinctness of a JS object's keys. -/
def keysNodup : List String → Bool
  | [] => true
  | k :: rest => !(rest.contains k) && keysNodup rest

mutual

/-- Every group node in the tree has distinct child names — guaranteed for
trees built by the constructors, which receive their children as a JS
object. -/
def nodupKeys : NgTree → Bool
  | .control _ _ => true
  | .group children _ => keysNodup (children.map Prod.fst) && nodupKeysG children
  | .array children _ => nodupKeysA children

def nodupKeysG : List (String × NgTree) → Bool
  | [] => true
  | (_, c) :: rest => nodupKeys c && nodupKeysG rest

def nodupKeysA : List NgTree → Bool
  | [] => true
  | c :: rest => nodupKeys c && nodupKeysA rest

end

/-- `new TypedFormControl(formState)` builds `new FormControl(formState)`:
an enabled leaf holding the initial state. -/
def TypedFormControl.mkTree (formState : JsVal) : NgTree :=
  .control formState false

/-- `new TypedFormGroup(controls)` builds a `FormGroup` from the children's
underlying controls, key for key. -/
def TypedFormGroup.mkTree (controls : List (String × NgTree)) : NgTree :=
  .group controls false

/-- `new TypedFormDictionary(controls)` builds a `FormGroup` from the
children's underlying controls, key for key. -/
def TypedFormDictionary.mkTree (controls : List (String × NgTree)) : NgTree :=
  .group controls false

/-- `new TypedFormArray(controls)` builds a `FormArray` from the children's
underlying controls, in order. -/
def TypedFormArray.mkTree (controls : List NgTree) : NgTree :=
  .array controls false

/-! ## The wrapper/control store (C2–C6)

The structural operations mutate a tree of wrapper objects, each holding a
`_parent` back-reference and an owned runtime control, which in turn holds
its own parent linkage and child collection.  Object identity matters
(`A.at(n) === x`, parent references), so both layers live in an id-indexed
store and every operation is explicit state passing.  Wrapper operations are
translated from the sources; the runtime (`ng`) operations are the external
collaborator of spec section 6, modelled from the spec and the host
framework's documented behaviour (`registerControl` ignores a present key
and links the child's parent, `removeControl`/`removeAt` delete without
clearing the removed child's parent linkage, and the group/array
constructors link every child's parent).  Indices are natural numbers; the
negative-index arithmetic of JS `splice` is out of scope (no claim uses
it). -/

abbrev WId := Nat
abbrev CId := Nat

/-- A runtime control's own data: a leaf's value, or a child collection. -/
inductive NgKind where
  | control (value : JsVal)
  | group (children : List (String × CId))
  | array (children : List CId)

structure NgCtrl where
  kind : NgKind
  parent : Option CId
  disabled : Bool

/-- A wrapper's kind-specific child collection (`_controls`). -/
inductive WKind where
  | control
  | group (children : List (String × WId))
  | dictionary (children : List (String × WId))
  | array (children : List WId)

/-- One wrapper object: `_controls` (inside `kind`), `_parent`, `_ctrl`. -/
structure Wrapper where
  kind : WKind
  parent : Option WId
  ctrl : CId

/-- The heap: wrapper objects and runtime controls by id, with allocation
counters. -/
@[ext]
structure St where
  ws : WId → Option Wrapper
  ngs : CId → Option NgCtrl
  nextW : WId
  nextC : CId

def St.empty : St := ⟨fun _ => none, fun _ => none, 0, 0⟩

def updW (st : St) (i : WId) (w : Wrapper) : St :=
  { st with ws := fun j => if j = i then some w else st.ws j }

def updNg (st : St) (c : CId) (n : NgCtrl) : St :=
  { st with ngs := fun d => if d = c then some n else st.ngs d }

/-- JS `array.splice(i, 0, x)` (insertion only): the index is clamped to the
length, so an out-of-range insertion appends. -/
def insertAt (l : List α) (i : Nat) (x : α) : List α :=
  l.take i ++ [x] ++ l.drop i

/-- JS `array.splice(i, 1)` (removal only): removes the element at `i` when
in range, otherwise nothing. -/
def removeIdx (l : List α) (i : Nat) : List α :=
  l.take i ++ l.drop (i + 1)

/-- Runtime `AbstractControl.setParent`: store the new parent linkage. -/
def ngSetParent (st : St) (c : CId) (p : Option CId) : St :=
  match st.ngs c with
  | none => st
  | some n => updNg st c { n with parent := p }

/-- Runtime `FormGroup.registerControl`: a present name returns the existing
child unchanged; otherwise the child is added and its parent linked to the
group. -/
def ngRegisterControl (st : St) (g : CId) (name : String) (c : CId) : St :=
  match st.ngs g with
  | some n =>
    match n.kind with
    | .group children =>
        if (children.lookup name).isSome then st
        else ngSetParent (updNg st g { n with kind := .group (children ++ [(name, c)]) })
          c (some g)
    | _ => st
  | none => st

/-- Runtime `FormGroup.addControl`: `registerControl` plus a validity
recomputation (which touches no modelled field). -/
def ngAddControl (st : St) (g : CId) (name : String) (c : CId) : St :=
  ngRegisterControl st g name c

/-- Runtime `FormGroup.removeControl`: delete the entry; the removed
control's parent linkage is left as it was. -/
def ngRemoveControl (st : St) (g : CId) (name : String) : St :=
  match st.ngs g with
  | some n =>
    match n.kind with
    | .group children =>
        updNg st g { n with kind := .group (children.filter fun p => p.1 != name) }
    | _ => st
  | none => st

/-- Runtime `FormGroup.setControl`: delete the entry, then register the new
child. -/
def ngSetControl (st : St) (g : CId) (name : String) (c : CId) : St :=
  ngRegisterControl (ngRemoveControl st g name) g name c

/-- Runtime `FormArray.push`: append the child and link its parent. -/
def ngPush (st : St) (a : CId) (c : CId) : St :=
  match st.ngs a with
  | some n =>
    match n.kind with
    | .array children =>
        ngSetParent (updNg st a { n with kind := .array (children ++ [c]) }) c (some a)
    | _ => st
  | none => st

/-- Runtime `FormArray.insert`: splice the child in and link its parent. -/
def ngInsert (st : St) (a : CId) (i : Nat) (c : CId) : St :=
  match st.ngs a with
  | some n =>
    match n.kind with
    | .array children =>
        ngSetParent (updNg st a { n with kind := .array (insertAt children i c) }) c (some a)
    | _ => st
  | none => st

/-- Runtime `FormArray.removeAt`: splice the child out; its parent linkage
is left as it was. -/
def ngRemoveAt (st : St) (a : CId) (i : Nat) : St :=
  match st.ngs a with
  | some n =>
    match n.kind with
    | .array children => updNg st a { n with kind := .array (removeIdx children i) }
    | _ => st
  | none => st

/-- Runtime `FormArray.setControl`: splice the old child out, splice the new
one in at the index, and link the new child's parent. -/
def ngArraySetControl (st : St) (a : CId) (i : Nat) (c : CId) : St :=
  match st.ngs a with
  | some n =>
    match n.kind with
    | .array children =>
        ngSetParent
          (updNg st a { n with kind := .array (insertAt (removeIdx children i) i c) })
          c (some a)
    | _ => st
  | none => st

/-- Runtime `FormGroup.contains`: the name is a present own property and the
child is enabled. -/
def ngContains (st : St) (g : CId) (name : String) : Bool :=
  match st.ngs g with
  | some n =>
    match n.kind with
    | .group children =>
      match children.lookup name with
      | some c =>
        match st.ngs c with
        | some ctrl => !ctrl.disabled
        | none => false
      | none => false
    | _ => false
  | none => false

/-- Runtime `new FormControl(formState)`: allocate an enabled, parentless
leaf control. -/
def ngNewControl (st : St) (v : JsVal) : CId × St :=
  (st.nextC,
    { st with
        ngs := fun d => if d = st.nextC then some ⟨.control v, none, false⟩ else st.ngs d
        nextC := st.nextC + 1 })

/-- Runtime `new FormGroup(controls)`: allocate the group and link every
child's parent to it (the framework's `_setUpControls`). -/
def ngNewGroup (st : St) (children : List (String × CId)) : CId × St :=
  let cid := st.nextC
  let st1 :=
    { st with
        ngs := fun d => if d = cid then some ⟨.group children, none, false⟩ else st.ngs d
        nextC := cid + 1 }
  (cid, children.foldl (fun acc kc => ngSetParent acc kc.2 (some cid)) st1)

/-- Runtime `new FormArray(controls)`: allocate the array and link every
child's parent to it. -/
def ngNewArray (st : St) (children : List CId) : CId × St :=
  let cid := st.nextC
  let st1 :=
    { st with
        ngs := fun d => if d = cid then some ⟨.array children, none, false⟩ else st.ngs d
        nextC := cid + 1 }
  (cid, children.foldl (fun acc c => ngSetParent acc c (some cid)) st1)

/-- `AbstractTypedControl.setParent` (the src variant):
`this._parent = parent; this._ctrl.setParent(parent ? parent._ctrl : null)`.
The unreachable lookup failure for the parent (the caller always passes a
live wrapper) leaves the runtime side untouched. -/
def setParent (st : St) (x : WId) (parent : Option WId) : St :=
  match st.ws x with
  | none => st
  | some w =>
    let st1 := updW st x { w with parent := parent }
    match parent with
    | none => ngSetParent st1 w.ctrl none
    | some p =>
      match st1.ws p with
      | some pw => ngSetParent st1 w.ctrl (some pw.ctrl)
      | none => st1

/-- Reading `ctrl._ctrl` for each child in a constructor argument: fails
only on a dangling id (impossible in JS, where live objects are passed). -/
def resolveCtrls (st : St) : List (String × WId) → Option (List (String × CId))
  | [] => some []
  | (k, x) :: rest =>
      match st.ws x with
      | none => none
      | some w =>
        match resolveCtrls st rest with
        | none => none
        | some tail => some ((k, w.ctrl) :: tail)

/-- Reading `ctrl._ctrl` for each child of an array constructor argument. -/
def resolveCtrlsA (st : St) : List WId → Option (List CId)
  | [] => some []
  | x :: rest =>
      match st.ws x with
      | none => none
      | some w =>
        match resolveCtrlsA st rest with
        | none => none
        | some tail => some (w.ctrl :: tail)

/-- `new TypedFormControl(formState)`: builds the runtime leaf first, then
the wrapper with no parent. -/
def TypedFormControl.new (st : St) (formState : JsVal) : WId × St :=
  let (cid, st1) := ngNewControl st formState
  (st1.nextW,
    { st1 with
        ws := fun j => if j = st1.nextW then some ⟨.control, none, cid⟩ else st1.ws j
        nextW := st1.nextW + 1 })

/-- `new TypedFormGroup(controls)`: builds the runtime group from every
child's `_ctrl` (which links the children's runtime parents), then stores
the wrapper children — without ever touching the children's wrapper
`_parent` fields.  `none` when a child id is dangling (impossible in JS,
where live child objects are passed). -/
def TypedFormGroup.new (st : St) (controls : List (String × WId)) : Option (WId × St) :=
  match resolveCtrls st controls with
  | none => none
  | some ngKids =>
    let (cid, st1) := ngNewGroup st ngKids
    some (st1.nextW,
      { st1 with
          ws := fun j => if j = st1.nextW then some ⟨.group controls, none, cid⟩ else st1.ws j
          nextW := st1.nextW + 1 })

/-- `new TypedFormDictionary(controls)`: same construction as the group,
with a runtime-mutable wrapper child map. -/
def TypedFormDictionary.new (st : St) (controls : List (String × WId)) :
    Option (WId × St) :=
  match resolveCtrls st controls with
  | none => none
  | some ngKids =>
    let (cid, st1) := ngNewGroup st ngKids
    some (st1.nextW,
      { st1 with
          ws := fun j =>
            if j = st1.nextW then some ⟨.dictionary controls, none, cid⟩ else st1.ws j
          nextW := st1.nextW + 1 })

/-- `new TypedFormArray(controls)`: builds the runtime array from every
child's `_ctrl`, then stores the wrapper children. -/
def TypedFormArray.new (st : St) (controls : List WId) : Option (WId × St) :=
  match resolveCtrlsA st controls with
  | none => none
  | some ngKids =>
    let (cid, st1) := ngNewArray st ngKids
    some (st1.nextW,
      { st1 with
          ws := fun j => if j = st1.nextW then some ⟨.array controls, none, cid⟩ else st1.ws j
          nextW := st1.nextW + 1 })

/-- `TypedFormGroup.setControl(name, control)`:
`delete this._controls[name]; this._controls[name] = control;`
`control.setParent(this); this.ng.setControl(name, control._ctrl)`.
The `if (control)` guard always passes for a supplied node. -/
def TypedFormGroup.setControl (st : St) (g : WId) (name : String) (control : WId) : St :=
  match st.ws g with
  | none => st
  | some w =>
    match w.kind with
    | .group children =>
      let st1 := updW st g
        { w with kind := .group ((children.filter fun p => p.1 != name) ++ [(name, control)]) }
      let st2 := setParent st1 control (some g)
      match st2.ws control with
      | some cw => ngSetControl st2 w.ctrl name cw.ctrl
      | none => st2
    | _ => st

/-- `TypedFormDictionary.setControl(name, control)`: identical shape to the
group's. -/
def TypedFormDictionary.setControl (st : St) (d : WId) (name : String) (control : WId) : St :=
  match st.ws d with
  | none => st
  | some w =>
    match w.kind with
    | .dictionary children =>
      let st1 := updW st d
        { w with
            kind := .dictionary ((children.filter fun p => p.1 != name) ++ [(name, control)]) }
      let st2 := setParent st1 control (some d)
      match st2.ws control with
      | some cw => ngSetControl st2 w.ctrl name cw.ctrl
      | none => st2
    | _ => st

/-- `TypedFormDictionary.registerControl(name, control)`: return the
existing child when present; otherwise store, attach and register. -/
def TypedFormDictionary.registerControl (st : St) (d : WId) (name : String) (control : WId) :
    WId × St :=
  match st.ws d with
  | none => (control, st)
  | some w =>
    match w.kind with
    | .dictionary children =>
      match children.lookup name with
      | some existing => (existing, st)
      | none =>
        let st1 := updW st d { w with kind := .dictionary (children ++ [(name, control)]) }
        let st2 := setParent st1 control (some d)
        match st2.ws control with
        | some cw => (control, ngRegisterControl st2 w.ctrl name cw.ctrl)
        | none => (control, st2)
    | _ => (control, st)

/-- `TypedFormDictionary.addControl(name, control)`: store and attach only
when the name is absent; the runtime `addControl` is called in both cases
(and ignores a present name itself). -/
def TypedFormDictionary.addControl (st : St) (d : WId) (name : String) (control : WId) : St :=
  match st.ws d with
  | none => st
  | some w =>
    match w.kind with
    | .dictionary children =>
      let st1 :=
        if (children.lookup name).isSome then st
        else
          setParent (updW st d { w with kind := .dictionary (children ++ [(name, control)]) })
            control (some d)
      match st1.ws control with
      | some cw => ngAddControl st1 w.ctrl name cw.ctrl
      | none => st1
    | _ => st

/-- `TypedFormDictionary.removeControl(name)`:
`delete this._controls[name]; this.ng.removeControl(name)` — no attach or
detach of anyone's parent. -/
def TypedFormDictionary.removeControl (st : St) (d : WId) (name : String) : St :=
  match st.ws d with
  | none => st
  | some w =>
    match w.kind with
    | .dictionary children =>
        ngRemoveControl
          (updW st d { w with kind := .dictionary (children.filter fun p => p.1 != name) })
          w.ctrl name
    | _ => st

/-- `TypedFormDictionary.contains(name)`: forwarded to the runtime group. -/
def TypedFormDictionary.contains (st : St) (d : WId) (name : String) : Bool :=
  match st.ws d with
  | some w => ngContains st w.ctrl name
  | none => false

/-- `TypedFormArray.push(control)`: append to `_controls`, attach, push the
runtime child. -/
def TypedFormArray.push (st : St) (a : WId) (control : WId) : St :=
  match st.ws a with
  | none => st
  | some w =>
    match w.kind with
    | .array children =>
      let st1 := updW st a { w with kind := .array (children ++ [control]) }
      let st2 := setParent st1 control (some a)
      match st2.ws control with
      | some cw => ngPush st2 w.ctrl cw.ctrl
      | none => st2
    | _ => st

/-- `TypedFormArray.insert(index, control)`: splice into `_controls`,
attach, insert the runtime child. -/
def TypedFormArray.insert (st : St) (a : WId) (i : Nat) (control : WId) : St :=
  match st.ws a with
  | none => st
  | some w =>
    match w.kind with
    | .array children =>
      let st1 := updW st a { w with kind := .array (insertAt children i control) }
      let st2 := setParent st1 control (some a)
      match st2.ws control with
      | some cw => ngInsert st2 w.ctrl i cw.ctrl
      | none => st2
    | _ => st

/-- `TypedFormArray.removeAt(index)`: splice out of `_controls`, detach the
deleted child (`setParent(null)`), remove the runtime child. -/
def TypedFormArray.removeAt (st : St) (a : WId) (i : Nat) : St :=
  match st.ws a with
  | none => st
  | some w =>
    match w.kind with
    | .array children =>
      let st1 := updW st a { w with kind := .array (removeIdx children i) }
      let st2 :=
        match children.get? i with
        | some deleted => setParent st1 deleted none
        | none => st1
      ngRemoveAt st2 w.ctrl i
    | _ => st

/-- `TypedFormArray.setControl(index, control)`: splice out and detach the
displaced child, splice the new child in, attach it, and replace the runtime
child. -/
def TypedFormArray.setControl (st : St) (a : WId) (i : Nat) (control : WId) : St :=
  match st.ws a with
  | none => st
  | some w =>
    match w.kind with
    | .array children =>
      let st1 := updW st a { w with kind := .array (removeIdx children i) }
      let st2 :=
        match children.get? i with
        | some deleted => setParent st1 deleted none
        | none => st1
      let st3 :=
        match st2.ws a with
        | some w2 =>
          match w2.kind with
          | .array children2 => updW st2 a { w2 with kind := .array (insertAt children2 i control) }
          | _ => st2
        | none => st2
      let st4 := setParent st3 control (some a)
      match st4.ws control with
      | some cw => ngArraySetControl st4 w.ctrl i cw.ctrl
      | none => st4
    | _ => st

/-- `TypedFormArray.at(index)`: `this.controls[index]` — a plain JS indexed
read, `undefined` outside `[0, length)`. -/
def TypedFormArray.atIdx (st : St) (a : WId) (i : Int) : Option WId :=
  match st.ws a with
  | some w =>
    match w.kind with
    | .array children => if i < 0 then none else children.get? i.toNat
    | _ => none
  | none => none

/-- `TypedFormArray.length`: `this.controls.length`. -/
def TypedFormArray.length (st : St) (a : WId) : Nat :=
  match st.ws a with
  | some w =>
    match w.kind with
    | .array children => children.length
    | _ => 0
  | none => 0

/-- The parent-agreement invariant of C2 at one wrapper: the underlying
control exists and its runtime parent linkage is exactly the wrapper
parent's underlying control (or cleared when the wrapper parent is none). -/
def agreeAt (st : St) (i : WId) : Prop :=
  ∀ w, st.ws i = some w →
    ∃ n, st.ngs w.ctrl = some n ∧
      n.parent = w.parent.bind fun p => (st.ws p).map fun pw => pw.ctrl

/-- The parent-agreement invariant of C2 over the whole store. -/
def agree (st : St) : Prop := ∀ i, agreeAt st i

/-- No two wrapper objects own the same runtime control — true of every
store built by the constructors, each of which allocates a fresh control. -/
def ctrlInj (st : St) : Prop :=
  ∀ i j wi wj, st.ws i = some wi → st.ws j = some wj → wi.ctrl = wj.ctrl → i = j

/-- A small concrete store in the shape the library's operations produce
when the parent references are kept in sync: an array wrapper (id 1) holding
one leaf (id 0), plus a detached leaf (id 2); runtime controls mirror the
wrapper ids one-to-one. -/
def stDemo : St :=
  ⟨fun j =>
      if j = 0 then some ⟨.control, some 1, 0⟩
      else if j = 1 then some ⟨.array [0], none, 1⟩
      else if j = 2 then some ⟨.control, none, 2⟩
      else none,
   fun c =>
      if c = 0 then some ⟨.control .null, some 1, false⟩
      else if c = 1 then some ⟨.array [0], none, false⟩
      else if c = 2 then some ⟨.control .null, none, false⟩
      else none,
   3, 3⟩

/-- A concrete store holding a two-field group wrapper (id 3, children
`a ↦ 0`, `b ↦ 1`, both attached) and a detached spare leaf (id 2);
runtime controls mirror the wrapper ids one-to-one. -/
def stDemo3 : St :=
  ⟨fun j =>
      if j = 0 then some ⟨.control, some 3, 0⟩
      else if j = 1 then some ⟨.control, some 3, 1⟩
      else if j = 2 then some ⟨.control, none, 2⟩
      else if j = 3 then some ⟨.group [("a", 0), ("b", 1)], none, 3⟩
      else none,
   fun c =>
      if c = 0 then some ⟨.control .null, some 3, false⟩
      else if c = 1 then some ⟨.control .null, some 3, false⟩
      else if c = 2 then some ⟨.control .null, none, false⟩
      else if c = 3 then some ⟨.group [("a", 0), ("b", 1)], none, false⟩
      else none,
   4, 4⟩

/-! ## Theorems settling the claims -/

/-- C1: the spec claims the value-type deriver recurses through Array and
Dictionary nodes (`V(Array<E>) = sequence of V(E)`, `V(Dictionary<E>) =
mapping from string to V(E)`), but `ValueType` in `src/utilities.ts` returns
the raw element node type for arrays (`U[]`) and a `Map` of raw element node
types for dictionaries (`Map<string, U>`), with no recursive conversion.
At the node type `TypedFormArray<TypedFormControl<number>>` the code yields
`TypedFormControl<number>[]` where the spec (and the library's own README
and the classes' `.value` getters) require `number[]`; at
`TypedFormDictionary<TypedFormControl<number>>` it yields
`Map<string, TypedFormControl<number>>` instead of a string-keyed record of
`number`. -/
theorem C1_valueType_not_recursive_on_array_and_dictionary :
    ValueType (.formArray (.formControl (.prim "number")))
      = .seq (.formControl (.prim "number"))
    ∧ ValueTypeSpec (.formArray (.formControl (.prim "number")))
      = .seq (.prim "number")
    ∧ ValueType (.formDictionary (.formControl (.prim "number")))
      = .mapStr (.formControl (.prim "number"))
    ∧ ValueTypeSpec (.formDictionary (.formControl (.prim "number")))
      = .record (.prim "number")
    ∧ ValueType (.formArray (.formControl (.prim "number")))
        ≠ ValueTypeSpec (.formArray (.formControl (.prim "number")))
    ∧ ValueType (.formDictionary (.formControl (.prim "number")))
        ≠ ValueTypeSpec (.formDictionary (.formControl (.prim "number"))) := by
  refine ⟨by simp [ValueType], by simp [ValueTypeSpec], by simp [ValueType],
    by simp [ValueTypeSpec], ?_, ?_⟩
  · simp [ValueType, ValueTypeSpec]
  · simp [ValueType, ValueTypeSpec]


theorem lookup_none_of_not_mem_keys (k : String) (l : List (String × JsVal))
    (h : k ∉ l.map Prod.fst) : List.lookup k l = none := by
  induction l with
  | nil => rfl
  | cons hd tl ih =>
    obtain ⟨k1, v1⟩ := hd
    simp only [List.map_cons, List.mem_cons] at h
    push_neg at h
    simp [List.lookup_cons, beq_eq_false_iff_ne.2 h.1, ih h.2]

theorem setKey_of_not_mem_keys (k : String) (v : JsVal) (a : List (String × JsVal))
    (h : k ∉ a.map Prod.fst) : setKey a k v = a ++ [(k, v)] := by
  induction a with
  | nil => rfl
  | cons hd tl ih =>
    obtain ⟨k1, v1⟩ := hd
    simp only [List.map_cons, List.mem_cons] at h
    push_neg at h
    simp [setKey, Ne.symm h.1, ih h.2]

theorem lookup_setKey (k k' : String) (v : JsVal) (a : List (String × JsVal)) :
    List.lookup k (setKey a k' v) =
      if k = k' then some v else List.lookup k a := by
  induction a with
  | nil =>
    by_cases hk : k = k'
    · simp [setKey, hk, List.lookup_cons]
    · simp [setKey, hk, List.lookup_cons, beq_eq_false_iff_ne.2 hk]
  | cons hd tl ih =>
    obtain ⟨k0, v0⟩ := hd
    by_cases h0 : k0 = k'
    · subst h0
      by_cases hk : k = k0
      · subst hk
        simp [setKey, List.lookup_cons]
      · simp [setKey, List.lookup_cons, beq_eq_false_iff_ne.2 hk, hk]
    · by_cases hk : k = k0
      · subst hk
        simp [setKey, h0, List.lookup_cons]
      · simp [setKey, h0, List.lookup_cons, beq_eq_false_iff_ne.2 hk, ih]

theorem lookup_spread (k : String) (a b : List (String × JsVal))
    (hb : (b.map Prod.fst).Nodup) :
    List.lookup k (spread a b) = (List.lookup k b).or (List.lookup k a) := by
  induction b generalizing a with
  | nil => simp [spread]
  | cons hd tl ih =>
    obtain ⟨k', v'⟩ := hd
    simp only [List.map_cons, List.nodup_cons] at hb
    have step : spread a ((k', v') :: tl) = spread (setKey a k' v') tl := rfl
    rw [step, ih (setKey a k' v') hb.2, lookup_setKey]
    by_cases hk : k = k'
    · subst hk
      rw [lookup_none_of_not_mem_keys k tl hb.1]
      simp [List.lookup_cons]
    · simp [List.lookup_cons, beq_eq_false_iff_ne.2 hk, hk]

theorem spread_disjoint (b : List (String × JsVal))
    (hb : (b.map Prod.fst).Nodup) :
    ∀ a : List (String × JsVal), (∀ x ∈ b.map Prod.fst, x ∉ a.map Prod.fst) →
      spread a b = a ++ b := by
  induction b with
  | nil => intro a _; simp [spread]
  | cons hd tl ih =>
    intro a hd'
    obtain ⟨k', v'⟩ := hd
    simp only [List.map_cons, List.nodup_cons] at hb
    have step : spread a ((k', v') :: tl) = spread (setKey a k' v') tl := rfl
    rw [step, setKey_of_not_mem_keys k' v' a (hd' k' (by simp))]
    rw [ih hb.2 (a ++ [(k', v')]) ?_]
    · simp
    · intro x hx
      simp only [List.map_append, List.mem_append, List.map_cons, List.map_nil,
        List.mem_singleton]
      push_neg
      refine ⟨hd' x (by simp [hx]), ?_⟩
      intro hxk
      subst hxk
      exact hb.1 hx

theorem spread_nil_of_nodup (e : List (String × JsVal))
    (he : (e.map Prod.fst).Nodup) : spread [] e = e := by
  have := spread_disjoint e he [] (by simp)
  simpa using this

theorem init_le_foldl_max (l : List Nat) : ∀ a : Nat, a ≤ l.foldl max a := by
  induction l with
  | nil => intro a; simp
  | cons x xs ih => intro a; exact le_trans (le_max_left a x) (ih (max a x))

theorem mem_le_foldl_max (l : List Nat) : ∀ (a : Nat) (x : Nat), x ∈ l → x ≤ l.foldl max a := by
  induction l with
  | nil => simp
  | cons y ys ih =>
    intro a x hx
    rcases List.mem_cons.1 hx with h | h
    · subst h
      exact le_trans (le_max_right a x) (init_le_foldl_max ys (max a x))
    · exact ih (max a y) x h

/-- C8: `toObservable` returns an observable whenever the async validator's
result is promise-like (a truthy value with a callable `then`, converted via
`from`) or observable-like (a truthy value with a callable `subscribe`), and
throws immediately — `Expected validator to return Promise or Observable.` —
whenever it is neither. -/
theorem C8_toObservable_dispatch (r : JsAny) :
    ((isPromise r || isSubscribable r) = true →
      ∃ o, toObservable r = .ok o ∧ isSubscribable o = true)
    ∧ ((isPromise r || isSubscribable r) = false →
      toObservable r = .error "Expected validator to return Promise or Observable.") := by
  cases r with
  | nullish =>
    simp [isPromise, isSubscribable, isObservable, JsAny.truthy, JsAny.hasCallableThen,
      JsAny.hasCallableSubscribe, toObservable]
  | primVal t =>
    cases t <;>
      simp [isPromise, isSubscribable, isObservable, JsAny.truthy, JsAny.hasCallableThen,
        JsAny.hasCallableSubscribe, toObservable]
  | objVal a b =>
    cases a <;> cases b <;>
      simp [isPromise, isSubscribable, isObservable, JsAny.truthy, JsAny.hasCallableThen,
        JsAny.hasCallableSubscribe, toObservable, fromPromise]

theorem C8_toObservable_dispatch_witness :
    (∃ o, toObservable (.objVal true false) = .ok o ∧ isSubscribable o = true)
    ∧ toObservable .nullish
        = .error "Expected validator to return Promise or Observable." :=
  ⟨(C8_toObservable_dispatch (.objVal true false)).1 (by decide),
   (C8_toObservable_dispatch .nullish).2 (by decide)⟩

/-- C9: composing `[v1, v2]` yields a validator that, when both fail, returns
the right-biased union of their error maps (provided that union is nonempty,
which holds whenever either error object has a key) and, when both pass,
returns `null`; `composeAsync` over async validators yields a validator that
settles exactly at the latest settlement time of the composed validators
(`forkJoin`: all issued, joined at the last completion, so no earlier than
any one of them) and merges all non-null results with `mergeErrors`. -/
theorem C9_compose_and_composeAsync :
    (∀ (v1 v2 : TypedValidatorFn) (c : CtrlId) (e1 e2 : ValidationErrors),
      v1 c = some e1 → v2 c = some e2 → (e1.map Prod.fst).Nodup →
      spread e1 e2 ≠ [] →
      ∃ f, TypedValidators.compose (some [some v1, some v2]) = some f
        ∧ f c = some (spread e1 e2))
    ∧ (∀ (v1 v2 : TypedValidatorFn) (c : CtrlId),
      v1 c = none → v2 c = none →
      ∃ f, TypedValidators.compose (some [some v1, some v2]) = some f
        ∧ f c = none)
    ∧ (∀ (validators : List (Option TypedAsyncValidatorFn)) (c : CtrlId),
      validators.filterMap id ≠ [] →
      ∃ g, TypedValidators.composeAsync validators = some g
        ∧ (∀ v ∈ validators.filterMap id, (v c).settle ≤ (g c).settle)
        ∧ (g c).settle
            = ((validators.filterMap id).map fun v => (v c).settle).foldl max 0
        ∧ (g c).result
            = mergeErrors ((validators.filterMap id).map fun v => (v c).result)) := by
  refine ⟨?_, ?_, ?_⟩
  · intro v1 v2 c e1 e2 h1 h2 hnd hne
    refine ⟨_, rfl, ?_⟩
    show mergeErrors [v1 c, v2 c] = some (spread e1 e2)
    rw [h1, h2]
    have hfold : foldErrors [some e1, some e2] = spread e1 e2 := by
      simp [foldErrors, spread_nil_of_nodup e1 hnd]
    rw [mergeErrors, hfold]
    cases h : spread e1 e2 with
    | nil => exact absurd h hne
    | cons x xs => simp
  · intro v1 v2 c h1 h2
    refine ⟨_, rfl, ?_⟩
    show mergeErrors [v1 c, v2 c] = none
    rw [h1, h2]
    rfl
  · intro validators c h
    have hP : (validators.filterMap id).isEmpty = false := by
      cases hfm : validators.filterMap id with
      | nil => exact absurd hfm h
      | cons x xs => rfl
    refine ⟨fun control =>
      { settle := ((((validators.filterMap id).map fun v => v control).map
          fun o => o.settle).foldl max 0)
        result := mergeErrors (((validators.filterMap id).map fun v => v control).map
          fun o => o.result) }, ?_, ?_, ?_, ?_⟩
    · simp only [TypedValidators.composeAsync, hP]
      rfl
    · intro v hv
      show (v c).settle ≤ _
      exact mem_le_foldl_max _ 0 _
        (List.mem_map_of_mem (fun o => o.settle)
          (List.mem_map_of_mem (fun v => v c) hv))
    · show (_ : List Nat).foldl max 0 = _
      rw [List.map_map]
      rfl
    · show mergeErrors _ = mergeErrors _
      rw [List.map_map]
      rfl

theorem C9_compose_and_composeAsync_witness :
    (∃ f, TypedValidators.compose
        (some [some (fun _ => some [("a", JsVal.num 1), ("b", JsVal.num 1)]),
               some (fun _ => some [("b", JsVal.num 2)])]) = some f
      ∧ f 0 = some (spread [("a", JsVal.num 1), ("b", JsVal.num 1)] [("b", JsVal.num 2)]))
    ∧ (∃ g, TypedValidators.composeAsync
        [some (fun _ => Obs.mk 3 none),
         some (fun _ => Obs.mk 5 (some [("x", JsVal.bool true)]))] = some g
      ∧ (∀ v ∈ ([some (fun _ => Obs.mk 3 none),
           some (fun _ => Obs.mk 5 (some [("x", JsVal.bool true)]))].filterMap
             (id : Option TypedAsyncValidatorFn → Option TypedAsyncValidatorFn)),
          (v 0).settle ≤ (g 0).settle)
      ∧ (g 0).settle
          = (([some (fun _ => Obs.mk 3 none),
              some (fun _ => Obs.mk 5 (some [("x", JsVal.bool true)]))].filterMap
                (id : Option TypedAsyncValidatorFn → Option TypedAsyncValidatorFn)).map
              fun v => (v 0).settle).foldl max 0
      ∧ (g 0).result
          = mergeErrors (([some (fun _ => Obs.mk 3 none),
              some (fun _ => Obs.mk 5 (some [("x", JsVal.bool true)]))].filterMap
                (id : Option TypedAsyncValidatorFn → Option TypedAsyncValidatorFn)).map
              fun v => (v 0).result)) :=
  ⟨C9_compose_and_composeAsync.1 _ _ 0 _ _ rfl rfl (by simp) (by simp [spread, setKey]),
   C9_compose_and_composeAsync.2.2 _ 0 (by simp)⟩

/-- C10: the merge of composed validator results is the left-to-right fold
`foldErrors` (appending one more non-null result spreads it over the
accumulated object, so a later validator's value for an error-code key
overwrites an earlier one's); the composed result is `null` exactly when the
folded object has no keys; and results that are `null` or the empty error
object contribute nothing to the fold. -/
theorem C10_merge_is_right_biased_fold :
    (∀ (rs : List (Option ValidationErrors)) (e : ValidationErrors),
      foldErrors (rs ++ [some e]) = spread (foldErrors rs) e)
    ∧ (∀ (a b : List (String × JsVal)) (k : String), (b.map Prod.fst).Nodup →
      List.lookup k (spread a b) = (List.lookup k b).or (List.lookup k a))
    ∧ (∀ rs : List (Option ValidationErrors),
      mergeErrors rs = none ↔ foldErrors rs = [])
    ∧ (∀ rs1 rs2 : List (Option ValidationErrors),
      foldErrors (rs1 ++ none :: rs2) = foldErrors (rs1 ++ rs2)
      ∧ foldErrors (rs1 ++ some [] :: rs2) = foldErrors (rs1 ++ rs2)) := by
  refine ⟨?_, ?_, ?_, ?_⟩
  · intro rs e
    simp [foldErrors, List.foldl_append]
  · intro a b k hb
    exact lookup_spread k a b hb
  · intro rs
    rw [mergeErrors]
    cases h : foldErrors rs with
    | nil => simp [h]
    | cons x xs => simp [h]
  · intro rs1 rs2
    constructor
    · simp [foldErrors, List.foldl_append]
    · simp [foldErrors, List.foldl_append, spread]

theorem C10_merge_is_right_biased_fold_witness :
    List.lookup "k" (spread [("k", JsVal.num 1)] [("k", JsVal.num 2)])
      = (List.lookup "k" [("k", JsVal.num 2)]).or (List.lookup "k" [("k", JsVal.num 1)])
    ∧ mergeErrors ([] : List (Option ValidationErrors)) = none :=
  ⟨C10_merge_is_right_biased_fold.2.1 [("k", JsVal.num 1)] [("k", JsVal.num 2)] "k" (by simp),
   (C10_merge_is_right_biased_fold.2.2.1 []).2 rfl⟩

theorem lookup_isSome_of_mem_keys {β : Type} (k : String) (l : List (String × β))
    (h : k ∈ l.map Prod.fst) : (List.lookup k l).isSome = true := by
  induction l with
  | nil => simp at h
  | cons hd tl ih =>
    obtain ⟨k1, v1⟩ := hd
    simp only [List.map_cons, List.mem_cons] at h
    by_cases hk : k = k1
    · subst hk
      simp [List.lookup_cons]
    · simp only [List.lookup_cons, beq_eq_false_iff_ne.2 hk]
      exact ih (h.resolve_left hk)

theorem lookup_eq_of_keysNodup {β : Type} (k : String) (v : β) (l : List (String × β))
    (hN : keysNodup (l.map Prod.fst) = true) (hm : (k, v) ∈ l) :
    List.lookup k l = some v := by
  induction l with
  | nil => simp at hm
  | cons hd tl ih =>
    obtain ⟨k1, v1⟩ := hd
    simp only [List.map_cons, keysNodup, Bool.and_eq_true, Bool.not_eq_true'] at hN
    have hout : k1 ∉ tl.map Prod.fst := by simpa using hN.1
    rcases List.mem_cons.1 hm with h1 | h1
    · cases h1
      simp [List.lookup_cons]
    · have hk : k ≠ k1 := by
        intro he
        subst he
        exact hout (List.mem_map_of_mem Prod.fst h1)
      simp only [List.lookup_cons, beq_eq_false_iff_ne.2 hk]
      exact ih hN.2 h1

theorem enabled_of_allEnabled (t : NgTree) (h : allEnabled t = true) :
    t.enabled = true := by
  cases t with
  | control a d => simpa [allEnabled, NgTree.enabled, NgTree.isDisabled] using h
  | group children d =>
    have h' : d = false ∧ allEnabledG children = true := by
      simpa [allEnabled, Bool.and_eq_true] using h
    simp [NgTree.enabled, NgTree.isDisabled, h'.1]
  | array children d =>
    have h' : d = false ∧ allEnabledA children = true := by
      simpa [allEnabled, Bool.and_eq_true] using h
    simp [NgTree.enabled, NgTree.isDisabled, h'.1]

theorem conformsG_keys (children : List (String × NgTree)) :
    ∀ fields : List (String × JsVal), conformsG children fields = true →
      children.map Prod.fst = fields.map Prod.fst := by
  induction children with
  | nil =>
    intro fields hC
    cases fields with
    | nil => rfl
    | cons f fs => simp [conformsG] at hC
  | cons hd tl ih =>
    intro fields hC
    obtain ⟨k, c⟩ := hd
    cases fields with
    | nil => simp [conformsG] at hC
    | cons f fs =>
      obtain ⟨k2, v2⟩ := f
      have hC' : (k == k2) = true ∧ conforms c v2 = true ∧ conformsG tl fs = true := by
        simpa [conformsG, Bool.and_eq_true, and_assoc] using hC
      have hk : k = k2 := by simpa using hC'.1
      simp [hk, ih fs hC'.2.2]

theorem conformsA_length (children : List NgTree) :
    ∀ vs : List JsVal, conformsA children vs = true →
      children.length = vs.length := by
  induction children with
  | nil =>
    intro vs hC
    cases vs with
    | nil => rfl
    | cons v vs' => simp [conformsA] at hC
  | cons c cs ih =>
    intro vs hC
    cases vs with
    | nil => simp [conformsA] at hC
    | cons v vs' =>
      have hC' : conforms c v = true ∧ conformsA cs vs' = true := by
        simpa [conformsA, Bool.and_eq_true] using hC
      simp [ih vs' hC'.2]

theorem checkAllValuesPresent_ok (fields : List (String × JsVal)) :
    ∀ children : List (String × NgTree),
      (∀ p ∈ children, (List.lookup p.1 fields).isSome = true) →
      checkAllValuesPresent (.obj fields) children = .ok () := by
  intro children
  induction children with
  | nil => intro _; rfl
  | cons hd tl ih =>
    intro h
    obtain ⟨k, c⟩ := hd
    have hk := h (k, c) (by simp)
    simp only at hk
    cases hlk : List.lookup k fields with
    | none => rw [hlk] at hk; simp at hk
    | some w =>
      simp only [checkAllValuesPresent, jsGet, hlk]
      exact ih (fun p hp => h p (by simp [hp]))

theorem checkNoMissingControls_ok (children : List (String × NgTree)) :
    ∀ ks : List String,
      (∀ k ∈ ks, (List.lookup k children).isSome = true) →
      checkNoMissingControls children ks = .ok () := by
  intro ks
  induction ks with
  | nil => intro _; rfl
  | cons k rest ih =>
    intro h
    have hk := h k (by simp)
    simp only [checkNoMissingControls, hk, if_true]
    exact ih (fun k' hk' => h k' (by simp [hk']))

mutual

theorem ngRoundTrip : ∀ (t : NgTree) (v : JsVal), allEnabled t = true →
    nodupKeys t = true → conforms t v = true →
    ∃ t2, ngSetValue t v = .ok t2 ∧ allEnabled t2 = true ∧ ngValue t2 = v
  | .control a d, v, hE, hN, hC => by
    refine ⟨.control v d, by simp [ngSetValue], ?_, by simp [ngValue]⟩
    simpa [allEnabled] using hE
  | .group children d, v, hE, hN, hC => by
    have hd' : d = false ∧ allEnabledG children = true := by
      simpa [allEnabled, Bool.and_eq_true] using hE
    cases v with
    | null => simp [conforms] at hC
    | bool b => simp [conforms] at hC
    | num n => simp [conforms] at hC
    | str s1 => simp [conforms] at hC
    | arr xs => simp [conforms] at hC
    | obj fields =>
      have hCG : conformsG children fields = true := by simpa [conforms] using hC
      have hKN : keysNodup (children.map Prod.fst) = true ∧ nodupKeysG children = true := by
        simpa [nodupKeys, Bool.and_eq_true] using hN
      have hkeys := conformsG_keys children fields hCG
      have hsub : ∀ p ∈ fields, List.lookup p.1 fields = some p.2 := by
        intro p hp
        obtain ⟨pk, pv⟩ := p
        exact lookup_eq_of_keysNodup pk pv fields (hkeys ▸ hKN.1) hp
      obtain ⟨children2, hset, hen2, hval2⟩ :=
        ngRoundTripG fields children fields hd'.2 hKN.2 hCG hsub
      refine ⟨.group children2 d, ?_, ?_, ?_⟩
      · have h1 : checkAllValuesPresent (.obj fields) children = .ok () := by
          apply checkAllValuesPresent_ok
          intro p hp
          apply lookup_isSome_of_mem_keys
          rw [← hkeys]
          exact List.mem_map_of_mem Prod.fst hp
        have h2 : checkNoMissingControls children (jsKeys (.obj fields)) = .ok () := by
          apply checkNoMissingControls_ok
          intro k hk
          apply lookup_isSome_of_mem_keys
          rw [hkeys]
          simpa [jsKeys] using hk
        simp [ngSetValue, h1, h2, hset]
      · simp [allEnabled, hd'.1, hen2]
      · simp [ngValue, hd'.1, hval2]
  | .array children d, v, hE, hN, hC => by
    have hd' : d = false ∧ allEnabledA children = true := by
      simpa [allEnabled, Bool.and_eq_true] using hE
    cases v with
    | null => simp [conforms] at hC
    | bool b => simp [conforms] at hC
    | num n => simp [conforms] at hC
    | str s1 => simp [conforms] at hC
    | obj fields => simp [conforms] at hC
    | arr vs =>
      have hCA : conformsA children vs = true := by simpa [conforms] using hC
      have hNA : nodupKeysA children = true := by simpa [nodupKeys] using hN
      have hlen := conformsA_length children vs hCA
      obtain ⟨children2, hset, hen2, hval2⟩ := ngRoundTripA vs children hd'.2 hNA hCA
      refine ⟨.array children2 d, ?_, ?_, ?_⟩
      · simp [ngSetValue, hlen, hset]
      · simp [allEnabled, hd'.1, hen2]
      · simp [ngValue, hd'.1, hval2]
termination_by t v hE hN hC => sizeOf t
decreasing_by
  all_goals
    simp only [NgTree.group.sizeOf_spec, NgTree.array.sizeOf_spec,
      NgTree.control.sizeOf_spec, Prod.mk.sizeOf_spec, List.cons.sizeOf_spec]
  all_goals omega

theorem ngRoundTripG : ∀ (fields0 : List (String × JsVal))
    (children : List (String × NgTree)) (fields : List (String × JsVal)),
    allEnabledG children = true → nodupKeysG children = true →
    conformsG children fields = true →
    (∀ p ∈ fields, List.lookup p.1 fields0 = some p.2) →
    ∃ children2, ngSetValueChildrenG (.obj fields0) children = .ok children2
      ∧ allEnabledG children2 = true ∧ ngValueChildrenG children2 false = fields
  | fields0, [], fields, hE, hN, hC, hsub => by
    cases fields with
    | nil =>
      exact ⟨[], by simp [ngSetValueChildrenG], by simp [allEnabledG],
        by simp [ngValueChildrenG]⟩
    | cons f fs => simp [conformsG] at hC
  | fields0, (k, c) :: cs, fields, hE, hN, hC, hsub => by
    cases fields with
    | nil => simp [conformsG] at hC
    | cons f fs =>
      obtain ⟨k2, v2⟩ := f
      have hC' : (k == k2) = true ∧ conforms c v2 = true ∧ conformsG cs fs = true := by
        simpa [conformsG, Bool.and_eq_true, and_assoc] using hC
      have hk : k = k2 := by simpa using hC'.1
      subst hk
      have hE' : allEnabled c = true ∧ allEnabledG cs = true := by
        simpa [allEnabledG, Bool.and_eq_true] using hE
      have hN' : nodupKeys c = true ∧ nodupKeysG cs = true := by
        simpa [nodupKeysG, Bool.and_eq_true] using hN
      have hlk : jsGet (.obj fields0) k = some v2 := by
        simpa [jsGet] using hsub (k, v2) (by simp)
      obtain ⟨c2, hsetc, henc, hvalc⟩ := ngRoundTrip c v2 hE'.1 hN'.1 hC'.2.1
      obtain ⟨cs2, hsetcs, hencs, hvalcs⟩ :=
        ngRoundTripG fields0 cs fs hE'.2 hN'.2 hC'.2.2 (fun p hp => hsub p (by simp [hp]))
      refine ⟨(k, c2) :: cs2, ?_, ?_, ?_⟩
      · simp [ngSetValueChildrenG, hlk, hsetc, hsetcs]
      · simp [allEnabledG, henc, hencs]
      · simp [ngValueChildrenG, enabled_of_allEnabled c2 henc, hvalc, hvalcs]
termination_by fields0 children fields hE hN hC hsub => sizeOf children
decreasing_by
  all_goals
    simp only [NgTree.group.sizeOf_spec, NgTree.array.sizeOf_spec,
      NgTree.control.sizeOf_spec, Prod.mk.sizeOf_spec, List.cons.sizeOf_spec]
  all_goals omega

theorem ngRoundTripA : ∀ (vs : List JsVal) (children : List NgTree),
    allEnabledA children = true → nodupKeysA children = true →
    conformsA children vs = true →
    ∃ children2, ngSetValueChildrenA vs children = .ok children2
      ∧ allEnabledA children2 = true ∧ ngValueChildrenA children2 false = vs
  | vs, [], hE, hN, hC => by
    cases vs with
    | nil =>
      exact ⟨[], by simp [ngSetValueChildrenA], by simp [allEnabledA],
        by simp [ngValueChildrenA]⟩
    | cons v vs' => simp [conformsA] at hC
  | vs, c :: cs, hE, hN, hC => by
    cases vs with
    | nil => simp [conformsA] at hC
    | cons v vs' =>
      have hC' : conforms c v = true ∧ conformsA cs vs' = true := by
        simpa [conformsA, Bool.and_eq_true] using hC
      have hE' : allEnabled c = true ∧ allEnabledA cs = true := by
        simpa [allEnabledA, Bool.and_eq_true] using hE
      have hN' : nodupKeys c = true ∧ nodupKeysA cs = true := by
        simpa [nodupKeysA, Bool.and_eq_true] using hN
      obtain ⟨c2, hsetc, henc, hvalc⟩ := ngRoundTrip c v hE'.1 hN'.1 hC'.1
      obtain ⟨cs2, hsetcs, hencs, hvalcs⟩ := ngRoundTripA vs' cs hE'.2 hN'.2 hC'.2
      refine ⟨c2 :: cs2, ?_, ?_, ?_⟩
      · simp [ngSetValueChildrenA, hsetc, hsetcs]
      · simp [allEnabledA, henc, hencs]
      · simp [ngValueChildrenA, enabled_of_allEnabled c2 henc, hvalc, hvalcs]
termination_by vs children hE hN hC => sizeOf children
decreasing_by
  all_goals
    simp only [NgTree.group.sizeOf_spec, NgTree.array.sizeOf_spec,
      NgTree.control.sizeOf_spec, Prod.mk.sizeOf_spec, List.cons.sizeOf_spec]
  all_goals omega

end

/-- C7: for every control tree in the state the constructors leave it in
(all controls enabled, group children distinctly named) — in particular for
a freshly constructed Leaf, Fixed Group, Dictionary or Array node — calling
`setValue(v)` with a value `v` of the node's derived value shape succeeds,
and reading `.value` afterwards returns exactly `v`.  The wrappers forward
both operations 1:1 to the underlying control, so the statement is about the
modelled control tree. -/
theorem C7_setValue_value_roundtrip (t : NgTree) (v : JsVal)
    (hE : allEnabled t = true) (hN : nodupKeys t = true) (hC : conforms t v = true) :
    ∃ t2, ngSetValue t v = .ok t2 ∧ ngValue t2 = v := by
  obtain ⟨t2, h1, _h2, h3⟩ := ngRoundTrip t v hE hN hC
  exact ⟨t2, h1, h3⟩

theorem C7_setValue_value_roundtrip_witness :
    (∃ t2, ngSetValue (TypedFormControl.mkTree (.str "test")) (.str "abc") = .ok t2
      ∧ ngValue t2 = .str "abc")
    ∧ (∃ t2, ngSetValue
        (TypedFormGroup.mkTree
          [("name", TypedFormControl.mkTree .null), ("age", TypedFormControl.mkTree .null)])
        (.obj [("name", .str "paul"), ("age", .num 30)]) = .ok t2
      ∧ ngValue t2 = .obj [("name", .str "paul"), ("age", .num 30)])
    ∧ (∃ t2, ngSetValue
        (TypedFormDictionary.mkTree
          [("usa", TypedFormGroup.mkTree [("count", TypedFormControl.mkTree .null)])])
        (.obj [("usa", .obj [("count", .num 1)])]) = .ok t2
      ∧ ngValue t2 = .obj [("usa", .obj [("count", .num 1)])])
    ∧ (∃ t2, ngSetValue
        (TypedFormArray.mkTree [TypedFormControl.mkTree .null, TypedFormControl.mkTree .null])
        (.arr [.num 1, .num 2]) = .ok t2
      ∧ ngValue t2 = .arr [.num 1, .num 2]) := by
  refine ⟨C7_setValue_value_roundtrip _ _ ?_ ?_ ?_, C7_setValue_value_roundtrip _ _ ?_ ?_ ?_,
    C7_setValue_value_roundtrip _ _ ?_ ?_ ?_, C7_setValue_value_roundtrip _ _ ?_ ?_ ?_⟩ <;>
    simp [TypedFormControl.mkTree, TypedFormGroup.mkTree, TypedFormDictionary.mkTree,
      TypedFormArray.mkTree, allEnabled, allEnabledG, allEnabledA, nodupKeys, nodupKeysG,
      nodupKeysA, keysNodup, conforms, conformsG, conformsA]

theorem updW_ws (st : St) (i : WId) (w : Wrapper) (j : WId) :
    (updW st i w).ws j = if j = i then some w else st.ws j := rfl

theorem updW_ngs (st : St) (i : WId) (w : Wrapper) (c : CId) :
    (updW st i w).ngs c = st.ngs c := rfl

theorem updNg_ngs (st : St) (c : CId) (n : NgCtrl) (d : CId) :
    (updNg st c n).ngs d = if d = c then some n else st.ngs d := rfl

theorem updNg_ws (st : St) (c : CId) (n : NgCtrl) (j : WId) :
    (updNg st c n).ws j = st.ws j := rfl

theorem ngSetParent_ws (st : St) (c : CId) (p : Option CId) (j : WId) :
    (ngSetParent st c p).ws j = st.ws j := by
  unfold ngSetParent
  cases st.ngs c <;> rfl

theorem ngSetParent_ngs_self (st : St) (c : CId) (p : Option CId) (n : NgCtrl)
    (h : st.ngs c = some n) :
    (ngSetParent st c p).ngs c = some { n with parent := p } := by
  unfold ngSetParent
  rw [h]
  simp [updNg_ngs]

theorem ngSetParent_ngs_other (st : St) (c : CId) (p : Option CId) (d : CId)
    (h : d ≠ c) : (ngSetParent st c p).ngs d = st.ngs d := by
  unfold ngSetParent
  cases st.ngs c with
  | none => rfl
  | some n => simp [updNg_ngs, h]

theorem ngSetParent_of_none (st : St) (c : CId) (p : Option CId)
    (h : st.ngs c = none) : ngSetParent st c p = st := by
  unfold ngSetParent
  rw [h]

theorem setParent_of_none (st : St) (x : WId) (p : Option WId)
    (h : st.ws x = none) : setParent st x p = st := by
  unfold setParent
  rw [h]

theorem setParent_ws_self (st : St) (x : WId) (p : Option WId) (w : Wrapper)
    (h : st.ws x = some w) :
    (setParent st x p).ws x = some { w with parent := p } := by
  unfold setParent
  rw [h]
  cases p with
  | none => simp [ngSetParent_ws, updW_ws]
  | some q =>
    cases hq : (if q = x then some ({ w with parent := some q } : Wrapper) else st.ws q) with
    | none => simp only [updW_ws, hq, ngSetParent_ws]; simp [updW_ws]
    | some pw => simp only [updW_ws, hq, ngSetParent_ws]; simp [updW_ws]

theorem setParent_ws_other (st : St) (x : WId) (p : Option WId) (j : WId)
    (h : j ≠ x) : (setParent st x p).ws j = st.ws j := by
  unfold setParent
  cases hx : st.ws x with
  | none => rfl
  | some w =>
    cases p with
    | none => simp [ngSetParent_ws, updW_ws, h]
    | some q =>
      cases hq : (if q = x then some ({ w with parent := some q } : Wrapper) else st.ws q) with
      | none => simp only [updW_ws, hq, ngSetParent_ws]; simp [updW_ws, h]
      | some pw => simp only [updW_ws, hq, ngSetParent_ws]; simp [updW_ws, h]

theorem setParent_none_ngs_self (st : St) (x : WId) (w : Wrapper) (n : NgCtrl)
    (hx : st.ws x = some w) (hn : st.ngs w.ctrl = some n) :
    (setParent st x none).ngs w.ctrl = some { n with parent := none } := by
  unfold setParent
  rw [hx]
  exact ngSetParent_ngs_self _ _ _ n hn

theorem setParent_some_ngs_self (st : St) (x q : WId) (w pw : Wrapper) (n : NgCtrl)
    (hx : st.ws x = some w)
    (hq : (if q = x then some ({ w with parent := some q } : Wrapper) else st.ws q) = some pw)
    (hn : st.ngs w.ctrl = some n) :
    (setParent st x (some q)).ngs w.ctrl = some { n with parent := some pw.ctrl } := by
  unfold setParent
  rw [hx]
  dsimp only
  simp only [updW_ws, hq]
  exact ngSetParent_ngs_self _ _ _ n hn

theorem setParent_ngs_other (st : St) (x : WId) (p : Option WId) (d : CId) (w : Wrapper)
    (hx : st.ws x = some w) (hd : d ≠ w.ctrl) :
    (setParent st x p).ngs d = st.ngs d := by
  unfold setParent
  rw [hx]
  cases p with
  | none => rw [ngSetParent_ngs_other _ _ _ _ hd]; rfl
  | some q =>
    cases hq : (if q = x then some ({ w with parent := some q } : Wrapper) else st.ws q) with
    | none => simp only [updW_ws, hq]; rfl
    | some pw => simp only [updW_ws, hq]; rw [ngSetParent_ngs_other _ _ _ _ hd]; rfl

theorem setParent_ngs_of_ctrl_none (st : St) (x : WId) (p : Option WId) (w : Wrapper)
    (hx : st.ws x = some w) (hn : st.ngs w.ctrl = none) (d : CId) :
    (setParent st x p).ngs d = st.ngs d := by
  by_cases hd : d = w.ctrl
  · subst hd
    unfold setParent
    rw [hx]
    dsimp only
    cases p with
    | none =>
      rw [ngSetParent_of_none _ _ _ (by rw [updW_ngs]; exact hn)]
      rw [updW_ngs]
    | some q =>
      cases hq : (if q = x then some ({ w with parent := some q } : Wrapper) else st.ws q) with
      | none =>
        simp only [updW_ws, hq]
        rw [updW_ngs]
      | some pw =>
        simp only [updW_ws, hq]
        rw [ngSetParent_of_none _ _ _ (by rw [updW_ngs]; exact hn)]
        rw [updW_ngs]
  · exact setParent_ngs_other st x p d w hx hd

theorem ngRegisterControl_ws (st : St) (g : CId) (name : String) (c : CId) (j : WId) :
    (ngRegisterControl st g name c).ws j = st.ws j := by
  unfold ngRegisterControl
  cases hg : st.ngs g with
  | none => rfl
  | some n =>
    obtain ⟨nk, np, nd⟩ := n
    cases nk with
    | control v => rfl
    | array cs => rfl
    | group cs =>
      by_cases hp : (cs.lookup name).isSome
      · simp [hp]
      · simp [hp, ngSetParent_ws, updNg_ws]

theorem ngAddControl_ws (st : St) (g : CId) (name : String) (c : CId) (j : WId) :
    (ngAddControl st g name c).ws j = st.ws j :=
  ngRegisterControl_ws st g name c j

theorem ngRemoveControl_ws (st : St) (g : CId) (name : String) (j : WId) :
    (ngRemoveControl st g name).ws j = st.ws j := by
  unfold ngRemoveControl
  cases hg : st.ngs g with
  | none => rfl
  | some n =>
    obtain ⟨nk, np, nd⟩ := n
    cases nk with
    | control v => rfl
    | array cs => rfl
    | group cs => rfl

theorem ngSetControl_ws (st : St) (g : CId) (name : String) (c : CId) (j : WId) :
    (ngSetControl st g name c).ws j = st.ws j := by
  unfold ngSetControl
  rw [ngRegisterControl_ws, ngRemoveControl_ws]

theorem ngPush_ws (st : St) (a : CId) (c : CId) (j : WId) :
    (ngPush st a c).ws j = st.ws j := by
  unfold ngPush
  cases hg : st.ngs a with
  | none => rfl
  | some n =>
    obtain ⟨nk, np, nd⟩ := n
    cases nk with
    | control v => rfl
    | array cs => simp [ngSetParent_ws, updNg_ws]
    | group cs => rfl

theorem ngInsert_ws (st : St) (a : CId) (i : Nat) (c : CId) (j : WId) :
    (ngInsert st a i c).ws j = st.ws j := by
  unfold ngInsert
  cases hg : st.ngs a with
  | none => rfl
  | some n =>
    obtain ⟨nk, np, nd⟩ := n
    cases nk with
    | control v => rfl
    | array cs => simp [ngSetParent_ws, updNg_ws]
    | group cs => rfl

theorem ngRemoveAt_ws (st : St) (a : CId) (i : Nat) (j : WId) :
    (ngRemoveAt st a i).ws j = st.ws j := by
  unfold ngRemoveAt
  cases hg : st.ngs a with
  | none => rfl
  | some n =>
    obtain ⟨nk, np, nd⟩ := n
    cases nk with
    | control v => rfl
    | array cs => rfl
    | group cs => rfl

theorem ngArraySetControl_ws (st : St) (a : CId) (i : Nat) (c : CId) (j : WId) :
    (ngArraySetControl st a i c).ws j = st.ws j := by
  unfold ngArraySetControl
  cases hg : st.ngs a with
  | none => rfl
  | some n =>
    obtain ⟨nk, np, nd⟩ := n
    cases nk with
    | control v => rfl
    | array cs => simp [ngSetParent_ws, updNg_ws]
    | group cs => rfl

theorem removeIdx_length {α : Type} (l : List α) (i : Nat) (h : i < l.length) :
    (removeIdx l i).length = l.length - 1 := by
  simp only [removeIdx, List.length_append, List.length_take, List.length_drop]
  omega

/-- C6: `at(index)` is a plain indexed read of the wrapper's child array:
for every index outside `[0, length)` — negative or at least the length —
it returns `undefined` (here `none`); the read is total and never a thrown
failure. -/
theorem C6_at_out_of_range_is_undefined (st : St) (a : WId) (w : Wrapper)
    (children : List WId) (hw : st.ws a = some w) (hk : w.kind = .array children)
    (i : Int) (hout : i < 0 ∨ (TypedFormArray.length st a : Int) ≤ i) :
    TypedFormArray.atIdx st a i = none := by
  obtain ⟨wk, wp, wc⟩ := w
  dsimp only at hk
  subst hk
  have hlen : TypedFormArray.length st a = children.length := by
    unfold TypedFormArray.length
    rw [hw]
  unfold TypedFormArray.atIdx
  rw [hw]
  dsimp only
  rcases hout with h | h
  · simp [h]
  · rw [hlen] at h
    have h0 : ¬ i < 0 := by omega
    rw [if_neg h0]
    exact List.get?_eq_none.2 (by omega)

theorem C6_at_out_of_range_is_undefined_witness :
    TypedFormArray.atIdx
      (((TypedFormArray.new
          (TypedFormControl.new (TypedFormControl.new St.empty .null).2 .null).2
          [0, 1]).getD (0, St.empty)).2) 2 5 = none := by
  apply C6_at_out_of_range_is_undefined _ _ ⟨.array [0, 1], none, 2⟩ [0, 1] rfl rfl
  right
  decide

/-- C5: `push(x)` appends `x` to the wrapper's child array (one more
element, `at(n) === x` at the old length `n`) and attaches `x`'s parent
reference to the array; `removeAt(i)` at an in-range index removes exactly
one element and clears the removed child's parent reference to none. -/
theorem C5_push_and_removeAt :
    (∀ (st : St) (a x : WId) (w wx : Wrapper) (children : List WId),
      st.ws a = some w → w.kind = .array children → st.ws x = some wx →
      TypedFormArray.length (TypedFormArray.push st a x) a = children.length + 1
      ∧ TypedFormArray.atIdx (TypedFormArray.push st a x) a (children.length : Int) = some x
      ∧ ∃ wx2, (TypedFormArray.push st a x).ws x = some wx2 ∧ wx2.parent = some a)
    ∧ (∀ (st : St) (a x : WId) (w : Wrapper) (children : List WId) (i : Nat),
      st.ws a = some w → w.kind = .array children → i < children.length →
      children.get? i = some x → (st.ws x).isSome →
      TypedFormArray.length (TypedFormArray.removeAt st a i) a = children.length - 1
      ∧ ∃ wx2, (TypedFormArray.removeAt st a i).ws x = some wx2 ∧ wx2.parent = none) := by
  constructor
  · intro st a x w wx children hw hk hx
    obtain ⟨wk, wp, wc⟩ := w
    dsimp only at hk
    subst hk
    unfold TypedFormArray.push
    rw [hw]
    dsimp only
    set w1 : Wrapper := ⟨.array (children ++ [x]), wp, wc⟩ with hw1
    set st1 := updW st a w1 with hst1
    have hx1 : st1.ws x = some (if x = a then w1 else wx) := by
      rw [hst1, updW_ws]
      by_cases hxa : x = a
      · simp [hxa]
      · simp [hxa, hx]
    set wx1 : Wrapper := if x = a then w1 else wx with hwx1
    have h2x : (setParent st1 x (some a)).ws x = some { wx1 with parent := some a } :=
      setParent_ws_self st1 x (some a) wx1 hx1
    have h2a : (setParent st1 x (some a)).ws a
        = some (if x = a then ({ wx1 with parent := some a } : Wrapper) else w1) := by
      by_cases hxa : x = a
      · subst hxa
        simp only [if_pos rfl]
        exact h2x
      · rw [setParent_ws_other st1 x (some a) a (fun h => hxa h.symm)]
        rw [hst1, updW_ws]
        simp [hxa]
    rw [h2x]
    dsimp only
    refine ⟨?_, ?_, ?_⟩
    · unfold TypedFormArray.length
      rw [ngPush_ws, h2a]
      by_cases hxa : x = a <;> simp [hxa, hw1, hwx1]
    · unfold TypedFormArray.atIdx
      rw [ngPush_ws, h2a]
      by_cases hxa : x = a <;>
        simp [hxa, hw1, hwx1, List.get?_concat_length]
    · refine ⟨{ wx1 with parent := some a }, ?_, rfl⟩
      rw [ngPush_ws, h2x]
  · intro st a x w children i hw hk hi hget hx
    obtain ⟨wk, wp, wc⟩ := w
    dsimp only at hk
    subst hk
    unfold TypedFormArray.removeAt
    rw [hw]
    dsimp only
    rw [hget]
    dsimp only
    set w1 : Wrapper := ⟨.array (removeIdx children i), wp, wc⟩ with hw1
    set st1 := updW st a w1 with hst1
    obtain ⟨wx0, hx0⟩ := Option.isSome_iff_exists.1 hx
    have hx1 : st1.ws x = some (if x = a then w1 else wx0) := by
      rw [hst1, updW_ws]
      by_cases hxa : x = a
      · simp [hxa]
      · simp [hxa, hx0]
    set wx1 : Wrapper := if x = a then w1 else wx0 with hwx1
    have h2x : (setParent st1 x none).ws x = some { wx1 with parent := none } :=
      setParent_ws_self st1 x none wx1 hx1
    have h2a : (setParent st1 x none).ws a
        = some (if x = a then ({ wx1 with parent := none } : Wrapper) else w1) := by
      by_cases hxa : x = a
      · subst hxa
        simp only [if_pos rfl]
        exact h2x
      · rw [setParent_ws_other st1 x none a (fun h => hxa h.symm)]
        rw [hst1, updW_ws]
        simp [hxa]
    refine ⟨?_, ?_⟩
    · unfold TypedFormArray.length
      rw [ngRemoveAt_ws, h2a]
      by_cases hxa : x = a <;>
        simp [hxa, hw1, hwx1, removeIdx_length children i hi]
    · refine ⟨{ wx1 with parent := none }, ?_, rfl⟩
      rw [ngRemoveAt_ws, h2x]

theorem C5_push_and_removeAt_witness :
    (TypedFormArray.length
        (TypedFormArray.push
          (((TypedFormArray.new
            (TypedFormControl.new (TypedFormControl.new St.empty .null).2 .null).2
            [0, 1]).getD (0, St.empty)).2) 2 1) 2 = 3
      ∧ TypedFormArray.atIdx
          (TypedFormArray.push
            (((TypedFormArray.new
              (TypedFormControl.new (TypedFormControl.new St.empty .null).2 .null).2
              [0, 1]).getD (0, St.empty)).2) 2 1) 2 ((2 : Nat) : Int) = some 1
      ∧ ∃ wx2, (TypedFormArray.push
          (((TypedFormArray.new
            (TypedFormControl.new (TypedFormControl.new St.empty .null).2 .null).2
            [0, 1]).getD (0, St.empty)).2) 2 1).ws 1 = some wx2 ∧ wx2.parent = some 2)
    ∧ (TypedFormArray.length
        (TypedFormArray.removeAt
          (((TypedFormArray.new
            (TypedFormControl.new (TypedFormControl.new St.empty .null).2 .null).2
            [0, 1]).getD (0, St.empty)).2) 2 0) 2 = 1
      ∧ ∃ wx2, (TypedFormArray.removeAt
          (((TypedFormArray.new
            (TypedFormControl.new (TypedFormControl.new St.empty .null).2 .null).2
            [0, 1]).getD (0, St.empty)).2) 2 0).ws 0 = some wx2 ∧ wx2.parent = none) :=
  ⟨C5_push_and_removeAt.1 _ 2 1 ⟨.array [0, 1], none, 2⟩ ⟨.control, none, 1⟩ [0, 1]
      rfl rfl rfl,
   C5_push_and_removeAt.2 _ 2 0 ⟨.array [0, 1], none, 2⟩ [0, 1] 0
      rfl rfl (by decide) rfl (by decide)⟩

theorem not_mem_keys_of_lookup_none {β : Type} (k : String) (l : List (String × β))
    (h : List.lookup k l = none) : k ∉ l.map Prod.fst := by
  intro hmem
  have := lookup_isSome_of_mem_keys k l hmem
  rw [h] at this
  simp at this

theorem filterKey_eq_self {β : Type} (k : String) (l : List (String × β))
    (h : List.lookup k l = none) : (l.filter fun p => p.1 != k) = l := by
  have hnm := not_mem_keys_of_lookup_none k l h
  apply List.filter_eq_self.2
  intro p hp
  simp only [bne_iff_ne, ne_eq, decide_eq_true_eq]
  intro he
  exact hnm (he ▸ List.mem_map_of_mem Prod.fst hp)

theorem lookup_filterKey {β : Type} (k : String) (l : List (String × β)) :
    List.lookup k (l.filter fun p => p.1 != k) = none := by
  induction l with
  | nil => rfl
  | cons hd tl ih =>
    obtain ⟨k1, v1⟩ := hd
    by_cases hk : k1 = k
    · simp [List.filter, hk, ih]
    · simp only [List.filter_cons]
      have : ((k1, v1).1 != k) = true := by simpa using hk
      rw [this]
      simp only [if_true]
      rw [List.lookup_cons]
      have : (k == k1) = false := beq_eq_false_iff_ne.2 (fun h => hk h.symm)
      rw [this]
      exact ih

theorem lookup_append_none {β : Type} (k : String) (l1 l2 : List (String × β))
    (h : List.lookup k l1 = none) :
    List.lookup k (l1 ++ l2) = List.lookup k l2 := by
  induction l1 with
  | nil => rfl
  | cons hd tl ih =>
    obtain ⟨k1, v1⟩ := hd
    rw [List.cons_append, List.lookup_cons]
    rw [List.lookup_cons] at h
    cases hbeq : k == k1 with
    | true => rw [hbeq] at h; simp at h
    | false => rw [hbeq] at h; exact ih h

theorem updW_self_eq (st : St) (i : WId) (w : Wrapper) (h : st.ws i = some w) :
    updW st i w = st := by
  ext1
  · funext j
    rw [updW_ws]
    by_cases hj : j = i
    · subst hj; rw [h]; simp
    · simp [hj]
  · rfl
  · rfl
  · rfl

theorem updNg_self_eq (st : St) (c : CId) (n : NgCtrl) (h : st.ngs c = some n) :
    updNg st c n = st := by
  ext1
  · rfl
  · funext d
    rw [updNg_ngs]
    by_cases hd : d = c
    · subst hd; rw [h]; simp
    · simp [hd]
  · rfl
  · rfl

/-- C4: on a Dictionary, a second `addControl` under an occupied key is a
silent no-op — the wrapper still maps the key to the first node;
`removeControl` deletes the key from both child collections so that
`contains` is false afterwards; and `removeControl` of an absent key leaves
the state exactly as it was (no error — `delete` of a missing property and
the runtime's guarded removal are both no-ops). -/
theorem C4_dictionary_add_ignore_remove :
    (∀ (st : St) (d n m : WId) (wd : Wrapper) (children : List (String × WId)) (k : String),
      st.ws d = some wd → wd.kind = .dictionary children → children.lookup k = none →
      (st.ws n).isSome →
      ∃ wd2 children2,
        (TypedFormDictionary.addControl
          (TypedFormDictionary.addControl st d k n) d k m).ws d = some wd2
        ∧ wd2.kind = .dictionary children2 ∧ children2.lookup k = some n)
    ∧ (∀ (st : St) (d : WId) (wd : Wrapper) (children : List (String × WId)) (k : String),
      st.ws d = some wd → wd.kind = .dictionary children →
      TypedFormDictionary.contains (TypedFormDictionary.removeControl st d k) d k = false)
    ∧ (∀ (st : St) (d : WId) (wd : Wrapper) (children : List (String × WId))
        (ng : NgCtrl) (ngcs : List (String × CId)) (k : String),
      st.ws d = some wd → wd.kind = .dictionary children →
      st.ngs wd.ctrl = some ng → ng.kind = .group ngcs →
      children.lookup k = none → ngcs.lookup k = none →
      TypedFormDictionary.removeControl st d k = st) := by
  refine ⟨?_, ?_, ?_⟩
  · intro st d n m wd children k hw hk hlk hn
    obtain ⟨wk, wp, wc⟩ := wd
    dsimp only at hk
    subst hk
    set stA := TypedFormDictionary.addControl st d k n with hstA
    have hstep1 : ∃ wp2, stA.ws d = some ⟨.dictionary (children ++ [(k, n)]), wp2, wc⟩ := by
      rw [hstA]
      unfold TypedFormDictionary.addControl
      rw [hw]
      dsimp only
      rw [hlk]
      simp only [Option.isSome_none, Bool.false_eq_true, if_false]
      set w1 : Wrapper := ⟨.dictionary (children ++ [(k, n)]), wp, wc⟩ with hw1
      set stU := updW st d w1 with hstU
      obtain ⟨wn0, hn0⟩ := Option.isSome_iff_exists.1 hn
      have hn1 : stU.ws n = some (if n = d then w1 else wn0) := by
        rw [hstU, updW_ws]
        by_cases hnd : n = d
        · simp [hnd]
        · simp [hnd, hn0]
      set wn1 : Wrapper := if n = d then w1 else wn0 with hwn1
      have h2n : (setParent stU n (some d)).ws n = some { wn1 with parent := some d } :=
        setParent_ws_self stU n (some d) wn1 hn1
      have h2d : (setParent stU n (some d)).ws d
          = some (if n = d then ({ wn1 with parent := some d } : Wrapper) else w1) := by
        by_cases hnd : n = d
        · subst hnd
          simp only [if_pos rfl]
          exact h2n
        · rw [setParent_ws_other stU n (some d) d (fun h => hnd h.symm)]
          rw [hstU, updW_ws]
          simp [hnd]
      rw [h2n]
      dsimp only
      rw [ngAddControl_ws, h2d]
      by_cases hnd : n = d
      · exact ⟨some d, by simp [hnd, hwn1, hw1]⟩
      · exact ⟨wp, by simp [hnd, hwn1, hw1]⟩
    obtain ⟨wp2, hA⟩ := hstep1
    refine ⟨⟨.dictionary (children ++ [(k, n)]), wp2, wc⟩, children ++ [(k, n)], ?_, rfl, ?_⟩
    · unfold TypedFormDictionary.addControl
      rw [hA]
      dsimp only
      have hlk2 : ((children ++ [(k, n)]).lookup k).isSome = true := by
        rw [lookup_append_none k children [(k, n)] hlk]
        simp [List.lookup_cons]
      rw [hlk2]
      simp only [if_true]
      cases hm2 : stA.ws m with
      | none => exact hA
      | some cw =>
        rw [ngAddControl_ws]
        exact hA
    · rw [lookup_append_none k children [(k, n)] hlk]
      simp [List.lookup_cons]
  · intro st d wd children k hw hk
    obtain ⟨wk, wp, wc⟩ := wd
    dsimp only at hk
    subst hk
    unfold TypedFormDictionary.removeControl
    rw [hw]
    dsimp only
    set w1 : Wrapper := ⟨.dictionary (children.filter fun p => p.1 != k), wp, wc⟩ with hw1
    set stU := updW st d w1 with hstU
    unfold TypedFormDictionary.contains
    rw [ngRemoveControl_ws]
    have hUd : stU.ws d = some w1 := by rw [hstU, updW_ws]; simp
    rw [hUd]
    dsimp only
    unfold ngContains ngRemoveControl
    cases hng : stU.ngs wc with
    | none =>
      dsimp only
      rw [hng]
    | some n =>
      obtain ⟨nk, np, nd⟩ := n
      cases nk with
      | control v =>
        dsimp only
        rw [hng]
      | array cs =>
        dsimp only
        rw [hng]
      | group gcs =>
        dsimp only
        rw [updNg_ngs]
        simp [lookup_filterKey]
  · intro st d wd children ng ngcs k hw hk hng hngk hlk hnglk
    obtain ⟨wk, wp, wc⟩ := wd
    dsimp only at hk
    subst hk
    obtain ⟨nk, np, nd⟩ := ng
    dsimp only at hngk
    subst hngk
    unfold TypedFormDictionary.removeControl
    rw [hw]
    dsimp only
    rw [filterKey_eq_self k children hlk]
    rw [updW_self_eq st d _ hw]
    unfold ngRemoveControl
    rw [hng]
    dsimp only
    rw [filterKey_eq_self k ngcs hnglk]
    exact updNg_self_eq st wc _ hng

theorem C4_dictionary_add_ignore_remove_witness :
    (∃ wd2 children2,
      (TypedFormDictionary.addControl
        (TypedFormDictionary.addControl
          (((TypedFormDictionary.new
            (TypedFormControl.new (TypedFormControl.new St.empty .null).2 .null).2
            []).getD (0, St.empty)).2) 2 "k" 0) 2 "k" 1).ws 2 = some wd2
      ∧ wd2.kind = .dictionary children2 ∧ children2.lookup "k" = some 0)
    ∧ TypedFormDictionary.contains
        (TypedFormDictionary.removeControl
          (((TypedFormDictionary.new
            (TypedFormControl.new (TypedFormControl.new St.empty .null).2 .null).2
            []).getD (0, St.empty)).2) 2 "k") 2 "k" = false
    ∧ TypedFormDictionary.removeControl
        (((TypedFormDictionary.new
          (TypedFormControl.new (TypedFormControl.new St.empty .null).2 .null).2
          []).getD (0, St.empty)).2) 2 "k"
      = (((TypedFormDictionary.new
          (TypedFormControl.new (TypedFormControl.new St.empty .null).2 .null).2
          []).getD (0, St.empty)).2) :=
  ⟨C4_dictionary_add_ignore_remove.1 _ 2 0 1 ⟨.dictionary [], none, 2⟩ [] "k"
      rfl rfl rfl (by decide),
   C4_dictionary_add_ignore_remove.2.1 _ 2 ⟨.dictionary [], none, 2⟩ [] "k" rfl rfl,
   C4_dictionary_add_ignore_remove.2.2 _ 2 ⟨.dictionary [], none, 2⟩ []
      ⟨.group [], none, false⟩ [] "k" rfl rfl rfl rfl rfl rfl⟩

theorem agree_of_views (st st2 : St)
    (hW : ∀ i, (st2.ws i).map (fun w => (w.parent, w.ctrl))
      = (st.ws i).map (fun w => (w.parent, w.ctrl)))
    (hN : ∀ c, (st2.ngs c).map (fun n => n.parent) = (st.ngs c).map (fun n => n.parent))
    (hA : agree st) : agree st2 := by
  intro i w2 hw2
  have h1 := hW i
  rw [hw2] at h1
  cases hw : st.ws i with
  | none => rw [hw] at h1; simp at h1
  | some w =>
    rw [hw] at h1
    simp only [Option.map_some'] at h1
    obtain ⟨hp, hc⟩ := Prod.mk.injEq .. ▸ Option.some.inj h1
    obtain ⟨n, hn, heq⟩ := hA i w hw
    have h2 := hN w.ctrl
    rw [hn] at h2
    simp only [Option.map_some'] at h2
    cases hn2 : st2.ngs w.ctrl with
    | none => rw [hn2] at h2; simp at h2
    | some n2 =>
      rw [hn2] at h2
      simp only [Option.map_some'] at h2
      refine ⟨n2, by rw [hc]; exact hn2, ?_⟩
      rw [Option.some.inj h2, heq, hp]
      cases hwp : w.parent with
      | none => rfl
      | some q =>
        simp only [Option.some_bind]
        have h3 := hW q
        cases hq : st.ws q with
        | none => rw [hq] at h3; simp only [Option.map_none'] at h3; rw [Option.map_eq_none'.1 h3]
        | some wq =>
          rw [hq] at h3
          simp only [Option.map_some'] at h3
          cases hq2 : st2.ws q with
          | none => rw [hq2] at h3; simp at h3
          | some wq2 =>
            rw [hq2] at h3
            simp only [Option.map_some'] at h3
            obtain ⟨_, hcq⟩ := Prod.mk.injEq .. ▸ Option.some.inj h3
            simp [hcq]

theorem agree_updW_kind (st : St) (i : WId) (w w2 : Wrapper)
    (hw : st.ws i = some w) (hp : w2.parent = w.parent) (hc : w2.ctrl = w.ctrl)
    (hA : agree st) : agree (updW st i w2) := by
  apply agree_of_views st _ _ _ hA
  · intro j
    rw [updW_ws]
    by_cases hj : j = i
    · subst hj; rw [if_pos rfl, hw]; simp [hp, hc]
    · rw [if_neg hj]
  · intro c
    rw [updW_ngs]

theorem agree_updNg_kind (st : St) (c : CId) (n n2 : NgCtrl)
    (hn : st.ngs c = some n) (hp : n2.parent = n.parent)
    (hA : agree st) : agree (updNg st c n2) := by
  apply agree_of_views st _ _ _ hA
  · intro j
    rw [updNg_ws]
  · intro d
    rw [updNg_ngs]
    by_cases hd : d = c
    · subst hd; rw [if_pos rfl, hn]; simp [hp]
    · rw [if_neg hd]

theorem agree_setParent (st : St) (x : WId) (p : Option WId)
    (hInj : ctrlInj st) (hA : agree st)
    (hp : ∀ q, p = some q → (st.ws q).isSome) :
    agree (setParent st x p) := by
  cases hx : st.ws x with
  | none => rw [setParent_of_none st x p hx]; exact hA
  | some w =>
    intro i wi hwi
    by_cases hix : i = x
    · subst hix
      rw [setParent_ws_self st i p w hx] at hwi
      have hwi' := Option.some.inj hwi
      subst hwi'
      obtain ⟨n, hn, _⟩ := hA i w hx
      cases p with
      | none =>
        refine ⟨{ n with parent := none }, ?_, ?_⟩
        · exact setParent_none_ngs_self st i w n hx hn
        · rfl
      | some q =>
        obtain ⟨wq, hwq⟩ := Option.isSome_iff_exists.1 (hp q rfl)
        by_cases hqx : q = i
        · subst hqx
          refine ⟨{ n with parent := some w.ctrl }, ?_, ?_⟩
          · exact setParent_some_ngs_self st q q w { w with parent := some q } n hx
              (by rw [if_pos rfl]) hn
          · simp only [Option.some_bind]
            rw [setParent_ws_self st q (some q) w hx]
            rfl
        · refine ⟨{ n with parent := some wq.ctrl }, ?_, ?_⟩
          · exact setParent_some_ngs_self st i q w wq n hx (by rw [if_neg hqx]; exact hwq) hn
          · simp only [Option.some_bind]
            rw [setParent_ws_other st i (some q) q hqx, hwq]
            rfl
    · rw [setParent_ws_other st x p i hix] at hwi
      obtain ⟨n, hn, heq⟩ := hA i wi hwi
      have hci : wi.ctrl ≠ w.ctrl := fun hcc => hix (hInj i x wi w hwi hx hcc)
      refine ⟨n, ?_, ?_⟩
      · rw [setParent_ngs_other st x p wi.ctrl w hx hci]
        exact hn
      · rw [heq]
        cases hpi : wi.parent with
        | none => rfl
        | some q =>
          simp only [Option.some_bind]
          by_cases hqx : q = x
          · subst hqx
            rw [setParent_ws_self st q p w hx, hx]
            rfl
          · rw [setParent_ws_other st x p q hqx]

theorem agree_ngSetParent_same (st : St) (c : CId) (v : Option CId)
    (hsame : ∀ n, st.ngs c = some n → n.parent = v) (hA : agree st) :
    agree (ngSetParent st c v) := by
  apply agree_of_views st _ _ _ hA
  · intro j
    rw [ngSetParent_ws]
  · intro d
    by_cases hdc : d = c
    · subst hdc
      cases hn : st.ngs d with
      | none => rw [ngSetParent_of_none st d v hn, hn]
      | some n => rw [ngSetParent_ngs_self st d v n hn]; simp [hsame n hn]
    · rw [ngSetParent_ngs_other st c v d hdc]

theorem setParent_ngParent_after (st : St) (x p : WId) (wx pw : Wrapper)
    (hx : st.ws x = some wx)
    (hq : (if p = x then some ({ wx with parent := some p } : Wrapper) else st.ws p) = some pw) :
    ∀ nn, (setParent st x (some p)).ngs wx.ctrl = some nn → nn.parent = some pw.ctrl := by
  intro nn h
  cases hn : st.ngs wx.ctrl with
  | some n0 =>
    rw [setParent_some_ngs_self st x p wx pw n0 hx hq hn] at h
    rw [← Option.some.inj h]
  | none =>
    rw [setParent_ngs_of_ctrl_none st x (some p) wx hx hn, hn] at h
    cases h

theorem agree_ngRemoveControl (st : St) (g : CId) (name : String)
    (hA : agree st) : agree (ngRemoveControl st g name) := by
  unfold ngRemoveControl
  cases hg : st.ngs g with
  | none => exact hA
  | some n =>
    obtain ⟨nk, np, nd⟩ := n
    cases nk with
    | control v => exact hA
    | array cs => exact hA
    | group cs => exact agree_updNg_kind st g _ _ hg rfl hA

theorem agree_ngRemoveAt (st : St) (a : CId) (i : Nat)
    (hA : agree st) : agree (ngRemoveAt st a i) := by
  unfold ngRemoveAt
  cases hg : st.ngs a with
  | none => exact hA
  | some n =>
    obtain ⟨nk, np, nd⟩ := n
    cases nk with
    | control v => exact hA
    | array cs => exact agree_updNg_kind st a _ _ hg rfl hA
    | group cs => exact hA

theorem ngRemoveControl_parentView (st : St) (g : CId) (name : String) (d : CId) :
    ((ngRemoveControl st g name).ngs d).map (fun n => n.parent)
      = (st.ngs d).map (fun n => n.parent) := by
  unfold ngRemoveControl
  cases hg : st.ngs g with
  | none => rfl
  | some n =>
    obtain ⟨nk, np, nd⟩ := n
    cases nk with
    | control v => rfl
    | array cs => rfl
    | group cs =>
      rw [updNg_ngs]
      by_cases hd : d = g
      · subst hd; rw [if_pos rfl]; simp [hg]
      · rw [if_neg hd]

theorem agree_ngRegisterControl (st : St) (g : CId) (name : String) (c : CId)
    (hc : ∀ n, st.ngs c = some n → n.parent = some g)
    (hA : agree st) : agree (ngRegisterControl st g name c) := by
  unfold ngRegisterControl
  cases hg : st.ngs g with
  | none => exact hA
  | some n =>
    obtain ⟨nk, np, nd⟩ := n
    cases nk with
    | control v => exact hA
    | array cs => exact hA
    | group cs =>
      by_cases hp : (cs.lookup name).isSome
      · simp [hp]; exact hA
      · simp only [hp, Bool.false_eq_true, if_false]
        apply agree_ngSetParent_same
        · intro nn hnn
          by_cases hcg : c = g
          · subst hcg
            rw [updNg_ngs, if_pos rfl] at hnn
            have := hc _ hg
            rw [← Option.some.inj hnn]
            exact this
          · rw [updNg_ngs, if_neg hcg] at hnn
            exact hc nn hnn
        · exact agree_updNg_kind st g _ _ hg rfl hA

theorem agree_ngPush (st : St) (a : CId) (c : CId)
    (hc : ∀ n, st.ngs c = some n → n.parent = some a)
    (hA : agree st) : agree (ngPush st a c) := by
  unfold ngPush
  cases hg : st.ngs a with
  | none => exact hA
  | some n =>
    obtain ⟨nk, np, nd⟩ := n
    cases nk with
    | control v => exact hA
    | group cs => exact hA
    | array cs =>
      apply agree_ngSetParent_same
      · intro nn hnn
        by_cases hca : c = a
        · subst hca
          rw [updNg_ngs, if_pos rfl] at hnn
          have := hc _ hg
          rw [← Option.some.inj hnn]
          exact this
        · rw [updNg_ngs, if_neg hca] at hnn
          exact hc nn hnn
      · exact agree_updNg_kind st a _ _ hg rfl hA

theorem agree_ngInsert (st : St) (a : CId) (i : Nat) (c : CId)
    (hc : ∀ n, st.ngs c = some n → n.parent = some a)
    (hA : agree st) : agree (ngInsert st a i c) := by
  unfold ngInsert
  cases hg : st.ngs a with
  | none => exact hA
  | some n =>
    obtain ⟨nk, np, nd⟩ := n
    cases nk with
    | control v => exact hA
    | group cs => exact hA
    | array cs =>
      apply agree_ngSetParent_same
      · intro nn hnn
        by_cases hca : c = a
        · subst hca
          rw [updNg_ngs, if_pos rfl] at hnn
          have := hc _ hg
          rw [← Option.some.inj hnn]
          exact this
        · rw [updNg_ngs, if_neg hca] at hnn
          exact hc nn hnn
      · exact agree_updNg_kind st a _ _ hg rfl hA

theorem agree_ngArraySetControl (st : St) (a : CId) (i : Nat) (c : CId)
    (hc : ∀ n, st.ngs c = some n → n.parent = some a)
    (hA : agree st) : agree (ngArraySetControl st a i c) := by
  unfold ngArraySetControl
  cases hg : st.ngs a with
  | none => exact hA
  | some n =>
    obtain ⟨nk, np, nd⟩ := n
    cases nk with
    | control v => exact hA
    | group cs => exact hA
    | array cs =>
      apply agree_ngSetParent_same
      · intro nn hnn
        by_cases hca : c = a
        · subst hca
          rw [updNg_ngs, if_pos rfl] at hnn
          have := hc _ hg
          rw [← Option.some.inj hnn]
          exact this
        · rw [updNg_ngs, if_neg hca] at hnn
          exact hc nn hnn
      · exact agree_updNg_kind st a _ _ hg rfl hA

theorem agree_ngSetControl (st : St) (g : CId) (name : String) (c : CId)
    (hc : ∀ n, st.ngs c = some n → n.parent = some g)
    (hA : agree st) : agree (ngSetControl st g name c) := by
  unfold ngSetControl
  apply agree_ngRegisterControl
  · intro n hn
    have hview := ngRemoveControl_parentView st g name c
    rw [hn] at hview
    cases h0 : st.ngs c with
    | none => rw [h0] at hview; simp at hview
    | some n0 =>
      rw [h0] at hview
      simp only [Option.map_some'] at hview
      rw [Option.some.inj hview]
      exact hc n0 h0
  · exact agree_ngRemoveControl st g name hA

theorem ctrlInj_of_views (st st2 : St)
    (hW : ∀ i, (st2.ws i).map (fun w => w.ctrl) = (st.ws i).map (fun w => w.ctrl))
    (hInj : ctrlInj st) : ctrlInj st2 := by
  intro i j wi wj hi hj hc
  have h1 := hW i
  have h2 := hW j
  rw [hi] at h1
  rw [hj] at h2
  cases hi0 : st.ws i with
  | none => rw [hi0] at h1; simp at h1
  | some wi0 =>
    cases hj0 : st.ws j with
    | none => rw [hj0] at h2; simp at h2
    | some wj0 =>
      rw [hi0] at h1
      rw [hj0] at h2
      simp only [Option.map_some'] at h1 h2
      exact hInj i j wi0 wj0 hi0 hj0
        (by rw [← Option.some.inj h1, ← Option.some.inj h2, hc])

theorem ctrlInj_updW_same (st : St) (i : WId) (w w2 : Wrapper)
    (hw : st.ws i = some w) (hc : w2.ctrl = w.ctrl) (hInj : ctrlInj st) :
    ctrlInj (updW st i w2) := by
  apply ctrlInj_of_views st _ _ hInj
  intro j
  rw [updW_ws]
  by_cases hj : j = i
  · subst hj; rw [if_pos rfl, hw]; simp [hc]
  · rw [if_neg hj]

theorem ctrlInj_setParent (st : St) (x : WId) (p : Option WId)
    (hInj : ctrlInj st) : ctrlInj (setParent st x p) := by
  apply ctrlInj_of_views st _ _ hInj
  intro j
  cases hx : st.ws x with
  | none => rw [setParent_of_none st x p hx]
  | some w =>
    by_cases hj : j = x
    · subst hj
      rw [setParent_ws_self st j p w hx, hx]
      simp
    · rw [setParent_ws_other st x p j hj]

theorem attachChild (st1 : St) (a x : WId) (w1 : Wrapper)
    (ha : st1.ws a = some w1) (hInj1 : ctrlInj st1) (hA1 : agree st1) :
    agree (setParent st1 x (some a))
    ∧ ∀ wx0, st1.ws x = some wx0 →
        (setParent st1 x (some a)).ws x = some { wx0 with parent := some a }
        ∧ ∀ nn, (setParent st1 x (some a)).ngs wx0.ctrl = some nn →
            nn.parent = some w1.ctrl := by
  refine ⟨agree_setParent st1 x (some a) hInj1 hA1
    (fun q hq => by cases hq; simp [ha]), ?_⟩
  intro wx0 hx0
  refine ⟨setParent_ws_self st1 x (some a) wx0 hx0, ?_⟩
  intro nn hnn
  have hq : (if a = x then some ({ wx0 with parent := some a } : Wrapper) else st1.ws a)
      = some (if a = x then { wx0 with parent := some a } else w1) := by
    by_cases h : a = x <;> simp [h, ha]
  have hres := setParent_ngParent_after st1 x a wx0 _ hx0 hq nn hnn
  rw [hres]
  by_cases h : a = x
  · subst h
    rw [ha] at hx0
    rw [Option.some.inj hx0]
    simp
  · simp [h]

theorem agree_push (st : St) (a x : WId) (hInj : ctrlInj st) (hA : agree st) :
    agree (TypedFormArray.push st a x) := by
  unfold TypedFormArray.push
  cases hw : st.ws a with
  | none => exact hA
  | some w =>
    obtain ⟨wk, wp, wc⟩ := w
    cases wk with
    | control => exact hA
    | group cs => exact hA
    | dictionary cs => exact hA
    | array cs =>
      dsimp only
      set w1 : Wrapper := ⟨.array (cs ++ [x]), wp, wc⟩ with hw1
      set st1 := updW st a w1 with hst1
      have ha1 : st1.ws a = some w1 := by rw [hst1, updW_ws, if_pos rfl]
      have hA1 : agree st1 := agree_updW_kind st a ⟨.array cs, wp, wc⟩ w1 hw rfl rfl hA
      have hInj1 : ctrlInj st1 := ctrlInj_updW_same st a ⟨.array cs, wp, wc⟩ w1 hw rfl hInj
      obtain ⟨hA2, hrest⟩ := attachChild st1 a x w1 ha1 hInj1 hA1
      cases hx1 : st1.ws x with
      | none =>
        rw [setParent_of_none st1 x (some a) hx1, hx1]
        exact hA1
      | some wx0 =>
        obtain ⟨h2x, hcc⟩ := hrest wx0 hx1
        rw [h2x]
        exact agree_ngPush _ wc wx0.ctrl hcc hA2

theorem agree_insert (st : St) (a : WId) (i : Nat) (x : WId)
    (hInj : ctrlInj st) (hA : agree st) :
    agree (TypedFormArray.insert st a i x) := by
  unfold TypedFormArray.insert
  cases hw : st.ws a with
  | none => exact hA
  | some w =>
    obtain ⟨wk, wp, wc⟩ := w
    cases wk with
    | control => exact hA
    | group cs => exact hA
    | dictionary cs => exact hA
    | array cs =>
      dsimp only
      set w1 : Wrapper := ⟨.array (insertAt cs i x), wp, wc⟩ with hw1
      set st1 := updW st a w1 with hst1
      have ha1 : st1.ws a = some w1 := by rw [hst1, updW_ws, if_pos rfl]
      have hA1 : agree st1 := agree_updW_kind st a ⟨.array cs, wp, wc⟩ w1 hw rfl rfl hA
      have hInj1 : ctrlInj st1 := ctrlInj_updW_same st a ⟨.array cs, wp, wc⟩ w1 hw rfl hInj
      obtain ⟨hA2, hrest⟩ := attachChild st1 a x w1 ha1 hInj1 hA1
      cases hx1 : st1.ws x with
      | none =>
        rw [setParent_of_none st1 x (some a) hx1, hx1]
        exact hA1
      | some wx0 =>
        obtain ⟨h2x, hcc⟩ := hrest wx0 hx1
        rw [h2x]
        exact agree_ngInsert _ wc i wx0.ctrl hcc hA2

theorem agree_removeAt (st : St) (a : WId) (i : Nat)
    (hInj : ctrlInj st) (hA : agree st) :
    agree (TypedFormArray.removeAt st a i) := by
  unfold TypedFormArray.removeAt
  cases hw : st.ws a with
  | none => exact hA
  | some w =>
    obtain ⟨wk, wp, wc⟩ := w
    cases wk with
    | control => exact hA
    | group cs => exact hA
    | dictionary cs => exact hA
    | array cs =>
      dsimp only
      set w1 : Wrapper := ⟨.array (removeIdx cs i), wp, wc⟩ with hw1
      set st1 := updW st a w1 with hst1
      have hA1 : agree st1 := agree_updW_kind st a ⟨.array cs, wp, wc⟩ w1 hw rfl rfl hA
      have hInj1 : ctrlInj st1 := ctrlInj_updW_same st a ⟨.array cs, wp, wc⟩ w1 hw rfl hInj
      cases hget : cs.get? i with
      | none => exact agree_ngRemoveAt st1 wc i hA1
      | some deleted =>
        dsimp only
        exact agree_ngRemoveAt _ wc i
          (agree_setParent st1 deleted none hInj1 hA1 (fun q hq => nomatch hq))

theorem agree_dictRemoveControl (st : St) (d : WId) (name : String)
    (hA : agree st) : agree (TypedFormDictionary.removeControl st d name) := by
  unfold TypedFormDictionary.removeControl
  cases hw : st.ws d with
  | none => exact hA
  | some w =>
    obtain ⟨wk, wp, wc⟩ := w
    cases wk with
    | control => exact hA
    | group cs => exact hA
    | array cs => exact hA
    | dictionary cs =>
      dsimp only
      exact agree_ngRemoveControl _ wc name
        (agree_updW_kind st d ⟨.dictionary cs, wp, wc⟩ _ hw rfl rfl hA)

theorem agree_groupSetControl (st : St) (g : WId) (name : String) (x : WId)
    (hInj : ctrlInj st) (hA : agree st) :
    agree (TypedFormGroup.setControl st g name x) := by
  unfold TypedFormGroup.setControl
  cases hw : st.ws g with
  | none => exact hA
  | some w =>
    obtain ⟨wk, wp, wc⟩ := w
    cases wk with
    | control => exact hA
    | dictionary cs => exact hA
    | array cs => exact hA
    | group cs =>
      dsimp only
      set w1 : Wrapper := ⟨.group ((cs.filter fun p => p.1 != name) ++ [(name, x)]), wp, wc⟩
        with hw1
      set st1 := updW st g w1 with hst1
      have ha1 : st1.ws g = some w1 := by rw [hst1, updW_ws, if_pos rfl]
      have hA1 : agree st1 := agree_updW_kind st g ⟨.group cs, wp, wc⟩ w1 hw rfl rfl hA
      have hInj1 : ctrlInj st1 := ctrlInj_updW_same st g ⟨.group cs, wp, wc⟩ w1 hw rfl hInj
      obtain ⟨hA2, hrest⟩ := attachChild st1 g x w1 ha1 hInj1 hA1
      cases hx1 : st1.ws x with
      | none =>
        rw [setParent_of_none st1 x (some g) hx1, hx1]
        exact hA1
      | some wx0 =>
        obtain ⟨h2x, hcc⟩ := hrest wx0 hx1
        rw [h2x]
        exact agree_ngSetControl _ wc name wx0.ctrl hcc hA2

theorem agree_dictSetControl (st : St) (d : WId) (name : String) (x : WId)
    (hInj : ctrlInj st) (hA : agree st) :
    agree (TypedFormDictionary.setControl st d name x) := by
  unfold TypedFormDictionary.setControl
  cases hw : st.ws d with
  | none => exact hA
  | some w =>
    obtain ⟨wk, wp, wc⟩ := w
    cases wk with
    | control => exact hA
    | group cs => exact hA
    | array cs => exact hA
    | dictionary cs =>
      dsimp only
      set w1 : Wrapper := ⟨.dictionary ((cs.filter fun p => p.1 != name) ++ [(name, x)]), wp, wc⟩
        with hw1
      set st1 := updW st d w1 with hst1
      have ha1 : st1.ws d = some w1 := by rw [hst1, updW_ws, if_pos rfl]
      have hA1 : agree st1 := agree_updW_kind st d ⟨.dictionary cs, wp, wc⟩ w1 hw rfl rfl hA
      have hInj1 : ctrlInj st1 := ctrlInj_updW_same st d ⟨.dictionary cs, wp, wc⟩ w1 hw rfl hInj
      obtain ⟨hA2, hrest⟩ := attachChild st1 d x w1 ha1 hInj1 hA1
      cases hx1 : st1.ws x with
      | none =>
        rw [setParent_of_none st1 x (some d) hx1, hx1]
        exact hA1
      | some wx0 =>
        obtain ⟨h2x, hcc⟩ := hrest wx0 hx1
        rw [h2x]
        exact agree_ngSetControl _ wc name wx0.ctrl hcc hA2

theorem agree_dictRegisterControl (st : St) (d : WId) (name : String) (x : WId)
    (hInj : ctrlInj st) (hA : agree st) :
    agree (TypedFormDictionary.registerControl st d name x).2 := by
  unfold TypedFormDictionary.registerControl
  cases hw : st.ws d with
  | none => exact hA
  | some w =>
    obtain ⟨wk, wp, wc⟩ := w
    cases wk with
    | control => exact hA
    | group cs => exact hA
    | array cs => exact hA
    | dictionary cs =>
      dsimp only
      cases hlk : cs.lookup name with
      | some existing => exact hA
      | none =>
        dsimp only
        set w1 : Wrapper := ⟨.dictionary (cs ++ [(name, x)]), wp, wc⟩ with hw1
        set st1 := updW st d w1 with hst1
        have ha1 : st1.ws d = some w1 := by rw [hst1, updW_ws, if_pos rfl]
        have hA1 : agree st1 := agree_updW_kind st d ⟨.dictionary cs, wp, wc⟩ w1 hw rfl rfl hA
        have hInj1 : ctrlInj st1 := ctrlInj_updW_same st d ⟨.dictionary cs, wp, wc⟩ w1 hw rfl hInj
        obtain ⟨hA2, hrest⟩ := attachChild st1 d x w1 ha1 hInj1 hA1
        cases hx1 : st1.ws x with
        | none =>
          rw [setParent_of_none st1 x (some d) hx1, hx1]
          exact hA1
        | some wx0 =>
          obtain ⟨h2x, hcc⟩ := hrest wx0 hx1
          rw [h2x]
          exact agree_ngRegisterControl _ wc name wx0.ctrl hcc hA2

theorem ngRegisterControl_present (st : St) (g : CId) (name : String) (c : CId)
    (hpres : ∀ n ncs, st.ngs g = some n → n.kind = .group ncs →
      (ncs.lookup name).isSome = true) :
    ngRegisterControl st g name c = st := by
  unfold ngRegisterControl
  cases hg : st.ngs g with
  | none => rfl
  | some n =>
    obtain ⟨nk, np, nd⟩ := n
    cases nk with
    | control v => rfl
    | array ncs => rfl
    | group ncs =>
      dsimp only
      rw [hpres _ ncs hg rfl]
      rfl

theorem agree_dictAddControl (st : St) (d : WId) (name : String) (x : WId)
    (hInj : ctrlInj st) (hA : agree st)
    (halign : ∀ w cs n ncs, st.ws d = some w → w.kind = .dictionary cs →
      st.ngs w.ctrl = some n → n.kind = .group ncs →
      (cs.lookup name).isSome = true → (ncs.lookup name).isSome = true) :
    agree (TypedFormDictionary.addControl st d name x) := by
  unfold TypedFormDictionary.addControl
  cases hw : st.ws d with
  | none => exact hA
  | some w =>
    obtain ⟨wk, wp, wc⟩ := w
    cases wk with
    | control => exact hA
    | group cs => exact hA
    | array cs => exact hA
    | dictionary cs =>
      dsimp only
      by_cases hlk : (cs.lookup name).isSome = true
      · rw [if_pos hlk]
        cases hx : st.ws x with
        | none => exact hA
        | some cw =>
          dsimp only
          unfold ngAddControl
          rw [ngRegisterControl_present st wc name cw.ctrl
            (fun n ncs hn hk => halign ⟨.dictionary cs, wp, wc⟩ cs n ncs hw rfl hn hk hlk)]
          exact hA
      · rw [if_neg hlk]
        set w1 : Wrapper := ⟨.dictionary (cs ++ [(name, x)]), wp, wc⟩ with hw1
        set st1 := updW st d w1 with hst1
        have ha1 : st1.ws d = some w1 := by rw [hst1, updW_ws, if_pos rfl]
        have hA1 : agree st1 := agree_updW_kind st d ⟨.dictionary cs, wp, wc⟩ w1 hw rfl rfl hA
        have hInj1 : ctrlInj st1 := ctrlInj_updW_same st d ⟨.dictionary cs, wp, wc⟩ w1 hw rfl hInj
        obtain ⟨hA2, hrest⟩ := attachChild st1 d x w1 ha1 hInj1 hA1
        cases hx1 : st1.ws x with
        | none =>
          rw [setParent_of_none st1 x (some d) hx1, hx1]
          exact hA1
        | some wx0 =>
          obtain ⟨h2x, hcc⟩ := hrest wx0 hx1
          rw [h2x]
          exact agree_ngRegisterControl _ wc name wx0.ctrl hcc hA2

theorem agree_arraySetControl (st : St) (a : WId) (i : Nat) (x : WId)
    (hInj : ctrlInj st) (hA : agree st) :
    agree (TypedFormArray.setControl st a i x) := by
  unfold TypedFormArray.setControl
  cases hw : st.ws a with
  | none => exact hA
  | some w =>
    obtain ⟨wk, wp, wc⟩ := w
    cases wk with
    | control => exact hA
    | group cs => exact hA
    | dictionary cs => exact hA
    | array cs =>
      dsimp only
      set w1 : Wrapper := ⟨.array (removeIdx cs i), wp, wc⟩ with hw1
      set st1 := updW st a w1 with hst1
      have ha1 : st1.ws a = some w1 := by rw [hst1, updW_ws, if_pos rfl]
      have hA1 : agree st1 := agree_updW_kind st a ⟨.array cs, wp, wc⟩ w1 hw rfl rfl hA
      have hInj1 : ctrlInj st1 := ctrlInj_updW_same st a ⟨.array cs, wp, wc⟩ w1 hw rfl hInj
      cases hget : cs.get? i with
      | none =>
        dsimp only
        rw [ha1, hw1]
        dsimp only
        set w3 : Wrapper := ⟨.array (insertAt (removeIdx cs i) i x), wp, wc⟩ with hw3
        set st3 := updW st1 a w3 with hst3
        have ha3 : st3.ws a = some w3 := by rw [hst3, updW_ws, if_pos rfl]
        have hA3 : agree st3 := agree_updW_kind st1 a w1 w3 ha1 rfl rfl hA1
        have hInj3 : ctrlInj st3 := ctrlInj_updW_same st1 a w1 w3 ha1 rfl hInj1
        obtain ⟨hA4, hrest⟩ := attachChild st3 a x w3 ha3 hInj3 hA3
        cases hx3 : st3.ws x with
        | none =>
          rw [setParent_of_none st3 x (some a) hx3, hx3]
          exact hA3
        | some wx0 =>
          obtain ⟨h2x, hcc⟩ := hrest wx0 hx3
          rw [h2x]
          exact agree_ngArraySetControl _ wc i wx0.ctrl hcc hA4
      | some deleted =>
        dsimp only
        set st2 := setParent st1 deleted none with hst2
        have hA2 : agree st2 := by
          rw [hst2]
          exact agree_setParent st1 deleted none hInj1 hA1 (fun q hq => nomatch hq)
        have hInj2 : ctrlInj st2 := by
          rw [hst2]
          exact ctrlInj_setParent st1 deleted none hInj1
        by_cases hda : deleted = a
        · subst hda
          have h2a : st2.ws deleted = some ⟨.array (removeIdx cs i), none, wc⟩ := by
            rw [hst2, setParent_ws_self st1 deleted none w1 ha1, hw1]
          rw [h2a]
          dsimp only
          set w3 : Wrapper := ⟨.array (insertAt (removeIdx cs i) i x), none, wc⟩ with hw3
          set st3 := updW st2 deleted w3 with hst3
          have ha3 : st3.ws deleted = some w3 := by rw [hst3, updW_ws, if_pos rfl]
          have hA3 : agree st3 :=
            agree_updW_kind st2 deleted ⟨.array (removeIdx cs i), none, wc⟩ w3 h2a rfl rfl hA2
          have hInj3 : ctrlInj st3 :=
            ctrlInj_updW_same st2 deleted ⟨.array (removeIdx cs i), none, wc⟩ w3 h2a rfl hInj2
          obtain ⟨hA4, hrest⟩ := attachChild st3 deleted x w3 ha3 hInj3 hA3
          cases hx3 : st3.ws x with
          | none =>
            rw [setParent_of_none st3 x (some deleted) hx3, hx3]
            exact hA3
          | some wx0 =>
            obtain ⟨h2x, hcc⟩ := hrest wx0 hx3
            rw [h2x]
            exact agree_ngArraySetControl _ wc i wx0.ctrl hcc hA4
        · have h2a : st2.ws a = some w1 := by
            rw [hst2, setParent_ws_other st1 deleted none a (fun h => hda h.symm)]
            exact ha1
          rw [h2a, hw1]
          dsimp only
          set w3 : Wrapper := ⟨.array (insertAt (removeIdx cs i) i x), wp, wc⟩ with hw3
          set st3 := updW st2 a w3 with hst3
          have ha3 : st3.ws a = some w3 := by rw [hst3, updW_ws, if_pos rfl]
          have hA3 : agree st3 :=
            agree_updW_kind st2 a w1 w3 h2a rfl rfl hA2
          have hInj3 : ctrlInj st3 :=
            ctrlInj_updW_same st2 a w1 w3 h2a rfl hInj2
          obtain ⟨hA4, hrest⟩ := attachChild st3 a x w3 ha3 hInj3 hA3
          cases hx3 : st3.ws x with
          | none =>
            rw [setParent_of_none st3 x (some a) hx3, hx3]
            exact hA3
          | some wx0 =>
            obtain ⟨h2x, hcc⟩ := hrest wx0 hx3
            rw [h2x]
            exact agree_ngArraySetControl _ wc i wx0.ctrl hcc hA4

theorem ngSetParent_ngs (st : St) (a : CId) (p : Option CId) (c : CId) :
    (ngSetParent st a p).ngs c
      = (st.ngs c).map (fun n => if c = a then { n with parent := p } else n) := by
  by_cases hca : c = a
  · subst hca
    cases hn : st.ngs c with
    | none => rw [ngSetParent_of_none st c p hn, hn]; rfl
    | some n => rw [ngSetParent_ngs_self st c p n hn]; simp [hn]
  · rw [ngSetParent_ngs_other st a p c hca]
    cases hn : st.ngs c with
    | none => rfl
    | some n => simp [hca]

theorem foldSetParent_ws (cid : CId) :
    ∀ (l : List CId) (st : St),
      (l.foldl (fun acc c => ngSetParent acc c (some cid)) st).ws = st.ws := by
  intro l
  induction l with
  | nil => intro st; rfl
  | cons a t ih =>
    intro st
    rw [List.foldl_cons, ih (ngSetParent st a (some cid))]
    funext j
    rw [ngSetParent_ws]

theorem foldSetParent_ngs (cid : CId) :
    ∀ (l : List CId) (st : St) (c : CId),
      ((l.foldl (fun acc c => ngSetParent acc c (some cid)) st).ngs c).map (fun n => n.parent)
        = if c ∈ l then (st.ngs c).map (fun _ => some cid)
          else (st.ngs c).map (fun n => n.parent) := by
  intro l
  induction l with
  | nil => intro st c; simp
  | cons a t ih =>
    intro st c
    rw [List.foldl_cons, ih (ngSetParent st a (some cid)) c]
    by_cases hct : c ∈ t
    · rw [if_pos hct, if_pos (List.mem_cons_of_mem a hct)]
      rw [ngSetParent_ngs]
      cases st.ngs c <;> simp
    · rw [if_neg hct]
      by_cases hca : c = a
      · subst hca
        rw [if_pos (List.mem_cons_self c t)]
        rw [ngSetParent_ngs]
        cases st.ngs c <;> simp
      · rw [if_neg (by simp [hca, hct])]
        rw [ngSetParent_ngs]
        cases st.ngs c <;> simp [hca]

theorem resolveCtrls_mem (st : St) :
    ∀ (controls : List (String × WId)) (l : List (String × CId)),
      resolveCtrls st controls = some l → ∀ k x, (k, x) ∈ controls →
        ∃ w, st.ws x = some w ∧ (k, w.ctrl) ∈ l := by
  intro controls
  induction controls with
  | nil => intro l _ k x hmem; cases hmem
  | cons kv rest ih =>
    intro l hres k x hmem
    obtain ⟨k0, x0⟩ := kv
    unfold resolveCtrls at hres
    cases hw0 : st.ws x0 with
    | none => rw [hw0] at hres; cases hres
    | some w0 =>
      rw [hw0] at hres
      dsimp only at hres
      cases htail : resolveCtrls st rest with
      | none => rw [htail] at hres; cases hres
      | some tail =>
        rw [htail] at hres
        dsimp only at hres
        rw [← Option.some.inj hres]
        rcases List.mem_cons.1 hmem with hhd | htl
        · obtain ⟨hk, hx⟩ := Prod.mk.injEq .. ▸ hhd
          subst hk
          subst hx
          exact ⟨w0, hw0, List.mem_cons_self _ _⟩
        · obtain ⟨w, hw, hmem2⟩ := ih tail htail k x htl
          exact ⟨w, hw, List.mem_cons_of_mem _ hmem2⟩

theorem ngSetParent_nextW (st : St) (c : CId) (p : Option CId) :
    (ngSetParent st c p).nextW = st.nextW := by
  unfold ngSetParent
  cases st.ngs c with
  | none => rfl
  | some n => rfl

theorem foldSetParent_nextW (cid : CId) :
    ∀ (l : List CId) (st : St),
      (l.foldl (fun acc c => ngSetParent acc c (some cid)) st).nextW = st.nextW := by
  intro l
  induction l with
  | nil => intro st; rfl
  | cons a t ih =>
    intro st
    rw [List.foldl_cons, ih, ngSetParent_nextW]

theorem groupNew_links_runtime_only (st : St) (controls : List (String × WId))
    (g : WId) (st2 : St) (k : String) (x : WId) (wx : Wrapper)
    (hA : agree st) (hfresh : st.ws st.nextW = none)
    (hnew : TypedFormGroup.new st controls = some (g, st2))
    (hmem : (k, x) ∈ controls) (hx : st.ws x = some wx) :
    st2.ws x = some wx ∧ ∀ n, st2.ngs wx.ctrl = some n → n.parent = some st.nextC := by
  unfold TypedFormGroup.new at hnew
  cases hres : resolveCtrls st controls with
  | none => rw [hres] at hnew; cases hnew
  | some ngKids =>
    rw [hres] at hnew
    unfold ngNewGroup at hnew
    dsimp only at hnew
    set stG : St :=
      { st with
          ngs := fun d =>
            if d = st.nextC then some ⟨.group ngKids, none, false⟩ else st.ngs d
          nextC := st.nextC + 1 } with hstG
    set F : St := ngKids.foldl (fun acc kc => ngSetParent acc kc.2 (some st.nextC)) stG with hF
    injection hnew with hpair
    injection hpair with hg hst2
    subst hst2
    have hFmap : F = (ngKids.map Prod.snd).foldl
        (fun acc c => ngSetParent acc c (some st.nextC)) stG := by
      rw [hF, List.foldl_map]
    have hFws : F.ws = st.ws := by
      rw [hFmap, foldSetParent_ws]
    have hFnextW : F.nextW = st.nextW := by
      rw [hFmap, foldSetParent_nextW]
    have hxne : x ≠ st.nextW := by
      intro h
      rw [h, hfresh] at hx
      cases hx
    constructor
    · show (fun j => if j = F.nextW then _ else F.ws j) x = some wx
      dsimp only
      rw [hFnextW, if_neg hxne, hFws]
      exact hx
    · intro n hn
      obtain ⟨w', hw', hmemL⟩ := resolveCtrls_mem st controls ngKids hres k x hmem
      rw [hx] at hw'
      have hwx : w' = wx := (Option.some.inj hw').symm
      subst hwx
      have hmemc : w'.ctrl ∈ ngKids.map Prod.snd :=
        List.mem_map.2 ⟨(k, w'.ctrl), hmemL, rfl⟩
      have hview := foldSetParent_ngs st.nextC (ngKids.map Prod.snd) stG w'.ctrl
      rw [if_pos hmemc, ← hFmap] at hview
      have hn' : F.ngs w'.ctrl = some n := hn
      rw [hn'] at hview
      obtain ⟨n0, hn0, _⟩ := hA x w' hx
      have hsome : ∃ m, stG.ngs w'.ctrl = some m := by
        rw [hstG]
        dsimp only
        by_cases h : w'.ctrl = st.nextC
        · exact ⟨_, by rw [if_pos h]⟩
        · exact ⟨n0, by rw [if_neg h]; exact hn0⟩
      obtain ⟨m, hm⟩ := hsome
      rw [hm] at hview
      simp only [Option.map_some'] at hview
      exact Option.some.inj hview

theorem mem_keys_of_lookup_isSome {β : Type} (k : String) (l : List (String × β))
    (h : (List.lookup k l).isSome = true) : k ∈ l.map Prod.fst := by
  induction l with
  | nil => simp [List.lookup] at h
  | cons p t ih =>
    obtain ⟨k0, v0⟩ := p
    by_cases hk : k = k0
    · subst hk
      simp
    · rw [List.lookup_cons] at h
      rw [beq_eq_false_iff_ne.2 hk] at h
      simp only [List.map_cons, List.mem_cons]
      exact Or.inr (ih h)

theorem stDemo_agree : agree stDemo := by
  intro i w hw
  by_cases h0 : i = 0
  · subst h0
    have hlit : stDemo.ws 0 = some ⟨.control, some 1, 0⟩ := rfl
    have hwe : w = ⟨.control, some 1, 0⟩ := Option.some.inj (hw.symm.trans hlit)
    subst hwe
    exact ⟨⟨.control .null, some 1, false⟩, rfl, rfl⟩
  · by_cases h1 : i = 1
    · subst h1
      have hlit : stDemo.ws 1 = some ⟨.array [0], none, 1⟩ := rfl
      have hwe : w = ⟨.array [0], none, 1⟩ := Option.some.inj (hw.symm.trans hlit)
      subst hwe
      exact ⟨⟨.array [0], none, false⟩, rfl, rfl⟩
    · by_cases h2 : i = 2
      · subst h2
        have hlit : stDemo.ws 2 = some ⟨.control, none, 2⟩ := rfl
        have hwe : w = ⟨.control, none, 2⟩ := Option.some.inj (hw.symm.trans hlit)
        subst hwe
        exact ⟨⟨.control .null, none, false⟩, rfl, rfl⟩
      · exfalso
        have hnone : stDemo.ws i = none := by
          unfold stDemo
          dsimp only
          rw [if_neg h0, if_neg h1, if_neg h2]
        rw [hnone] at hw
        cases hw

theorem stDemo_ctrlInj : ctrlInj stDemo := by
  have key : ∀ m wm, stDemo.ws m = some wm → wm.ctrl = m := by
    intro m wm hm
    by_cases h0 : m = 0
    · subst h0
      have hlit : stDemo.ws 0 = some ⟨.control, some 1, 0⟩ := rfl
      rw [hlit] at hm
      rw [← Option.some.inj hm]
    · by_cases h1 : m = 1
      · subst h1
        have hlit : stDemo.ws 1 = some ⟨.array [0], none, 1⟩ := rfl
        rw [hlit] at hm
        rw [← Option.some.inj hm]
      · by_cases h2 : m = 2
        · subst h2
          have hlit : stDemo.ws 2 = some ⟨.control, none, 2⟩ := rfl
          rw [hlit] at hm
          rw [← Option.some.inj hm]
        · exfalso
          have hnone : stDemo.ws m = none := by
            unfold stDemo
            dsimp only
            rw [if_neg h0, if_neg h1, if_neg h2]
          rw [hnone] at hm
          cases hm
  intro i j wi wj hi hj hc
  rw [← key i wi hi, ← key j wj hj, hc]

/-- C2 (counterexample to the claim as stated): construction itself violates
the parent-agreement invariant.  Wrapping a fresh leaf in a group links the
leaf's runtime parent to the group's runtime control, but the leaf wrapper's
own `_parent` is never written, so it stays `none` while the runtime parent
is set. -/
theorem C2_construction_counterexample :
    ¬ agree ((TypedFormGroup.new (TypedFormControl.new St.empty .null).2
        [("a", 0)]).getD (0, St.empty)).2 := by
  intro h
  obtain ⟨n, hn, hp⟩ := h 0 ⟨.control, none, 0⟩ rfl
  have hlit : ((TypedFormGroup.new (TypedFormControl.new St.empty .null).2
      [("a", 0)]).getD (0, St.empty)).2.ngs ((⟨.control, none, 0⟩ : Wrapper).ctrl)
      = some ⟨.control .null, some 1, false⟩ := rfl
  have hn2 : n = ⟨.control .null, some 1, false⟩ := Option.some.inj (hn.symm.trans hlit)
  subst hn2
  simp at hp

/-- C2 (amended): the parent-agreement invariant between a wrapper's
`_parent` and its runtime control's parent linkage is preserved by every
structural mutation — `setParent` (to a live target), array `push`,
`insert`, `removeAt` and `setControl`, group `setControl`, dictionary
`setControl`, `addControl` (when the wrapper's and the runtime's key sets
agree on the added name), `registerControl` and `removeControl` — on any
store whose wrappers own distinct runtime controls; but construction does
not establish it: wrapping children in a new group sets each child's
runtime parent to the new runtime group while leaving the child wrapper's
`_parent` reference untouched. -/
theorem C2_parent_agreement_preserved_by_ops_not_construction :
    (∀ st x p, ctrlInj st → agree st →
        (∀ q, p = some q → (st.ws q).isSome) → agree (setParent st x p))
    ∧ (∀ st a x, ctrlInj st → agree st → agree (TypedFormArray.push st a x))
    ∧ (∀ st a i x, ctrlInj st → agree st → agree (TypedFormArray.insert st a i x))
    ∧ (∀ st a i, ctrlInj st → agree st → agree (TypedFormArray.removeAt st a i))
    ∧ (∀ st a i x, ctrlInj st → agree st → agree (TypedFormArray.setControl st a i x))
    ∧ (∀ st g k x, ctrlInj st → agree st → agree (TypedFormGroup.setControl st g k x))
    ∧ (∀ st d k x, ctrlInj st → agree st → agree (TypedFormDictionary.setControl st d k x))
    ∧ (∀ st d k x, ctrlInj st → agree st →
        (∀ w cs n ncs, st.ws d = some w → w.kind = .dictionary cs →
          st.ngs w.ctrl = some n → n.kind = .group ncs →
          (cs.lookup k).isSome = true → (ncs.lookup k).isSome = true) →
        agree (TypedFormDictionary.addControl st d k x))
    ∧ (∀ st d k x, ctrlInj st → agree st →
        agree (TypedFormDictionary.registerControl st d k x).2)
    ∧ (∀ st d k, agree st → agree (TypedFormDictionary.removeControl st d k))
    ∧ (∀ st controls g st2 k x wx, agree st → st.ws st.nextW = none →
        TypedFormGroup.new st controls = some (g, st2) → (k, x) ∈ controls →
        st.ws x = some wx →
        st2.ws x = some wx ∧ ∀ n, st2.ngs wx.ctrl = some n → n.parent = some st.nextC) :=
  ⟨fun st x p hInj hA hp => agree_setParent st x p hInj hA hp,
   fun st a x hInj hA => agree_push st a x hInj hA,
   fun st a i x hInj hA => agree_insert st a i x hInj hA,
   fun st a i hInj hA => agree_removeAt st a i hInj hA,
   fun st a i x hInj hA => agree_arraySetControl st a i x hInj hA,
   fun st g k x hInj hA => agree_groupSetControl st g k x hInj hA,
   fun st d k x hInj hA => agree_dictSetControl st d k x hInj hA,
   fun st d k x hInj hA halign => agree_dictAddControl st d k x hInj hA halign,
   fun st d k x hInj hA => agree_dictRegisterControl st d k x hInj hA,
   fun st d k hA => agree_dictRemoveControl st d k hA,
   fun st controls g st2 k x wx hA hfresh hnew hmem hx =>
     groupNew_links_runtime_only st controls g st2 k x wx hA hfresh hnew hmem hx⟩

theorem C2_parent_agreement_preserved_by_ops_not_construction_witness :
    agree (TypedFormArray.push stDemo 1 2)
    ∧ (((TypedFormGroup.new stDemo [("a", 2)]).getD (0, St.empty)).2.ws 2
          = some ⟨.control, none, 2⟩
        ∧ ∀ n, ((TypedFormGroup.new stDemo [("a", 2)]).getD (0, St.empty)).2.ngs
            ((⟨.control, none, 2⟩ : Wrapper).ctrl) = some n → n.parent = some 3) :=
  ⟨C2_parent_agreement_preserved_by_ops_not_construction.2.1 stDemo 1 2
      stDemo_ctrlInj stDemo_agree,
   C2_parent_agreement_preserved_by_ops_not_construction.2.2.2.2.2.2.2.2.2.2
      stDemo [("a", 2)] 3
      ((TypedFormGroup.new stDemo [("a", 2)]).getD (0, St.empty)).2
      "a" 2 ⟨.control, none, 2⟩
      stDemo_agree rfl rfl (List.mem_cons_self _ _) rfl⟩

/-- C3 (counterexample to the claim as stated): `TypedFormGroup.setControl`
never clears the displaced child's parent reference.  In a two-field group
(children `a ↦ 0`, `b ↦ 1`, both attached), replacing the child at `"a"`
leaves the displaced wrapper's `_parent` still pointing at the group. -/
theorem C3_setControl_counterexample :
    ¬ (∀ w0, (TypedFormGroup.setControl stDemo3 3 "a" 2).ws 0 = some w0 →
        w0.parent = none) := by
  intro h
  have hp := h ⟨.control, some 3, 0⟩ rfl
  simp at hp

/-- C3 (amended): for a group `g` with wrapper children `children` holding
`old` at key `k`, `setControl k x` stores `x` at `k` keeping the key set,
attaches `x`'s wrapper parent to `g`, replaces the runtime child so that the
runtime group maps `k` to `x`'s underlying control — but the displaced
child's wrapper parent reference is left exactly as it was, never cleared. -/
theorem C3_setControl_replaces_without_detaching
    (st : St) (g : WId) (k : String) (x old : WId)
    (w wx wold : Wrapper) (children : List (String × WId))
    (n : NgCtrl) (ncs : List (String × CId))
    (hw : st.ws g = some w) (hk : w.kind = .group children)
    (hx : st.ws x = some wx)
    (hold : children.lookup k = some old) (holdw : st.ws old = some wold)
    (hxg : x ≠ g) (holdg : old ≠ g) (holdx : old ≠ x)
    (hn : st.ngs w.ctrl = some n) (hnk : n.kind = .group ncs)
    (hcc : wx.ctrl ≠ w.ctrl) :
    (∃ w2 children2, (TypedFormGroup.setControl st g k x).ws g = some w2
      ∧ w2.kind = .group children2
      ∧ children2.lookup k = some x
      ∧ ∀ s, s ∈ children2.map Prod.fst ↔ s ∈ children.map Prod.fst)
    ∧ (TypedFormGroup.setControl st g k x).ws x = some ⟨wx.kind, some g, wx.ctrl⟩
    ∧ (∃ n2 ncs2, (TypedFormGroup.setControl st g k x).ngs w.ctrl = some n2
        ∧ n2.kind = .group ncs2 ∧ ncs2.lookup k = some wx.ctrl)
    ∧ (TypedFormGroup.setControl st g k x).ws old = some wold := by
  obtain ⟨wk, wp, wc⟩ := w
  dsimp only at hk hn hcc ⊢
  subst hk
  obtain ⟨nk, np, nd⟩ := n
  dsimp only at hnk
  subst hnk
  unfold TypedFormGroup.setControl
  rw [hw]
  dsimp only
  set w1 : Wrapper := ⟨.group ((children.filter fun p => p.1 != k) ++ [(k, x)]), wp, wc⟩
    with hw1
  set st1 := updW st g w1 with hst1
  have ha1 : st1.ws g = some w1 := by rw [hst1, updW_ws, if_pos rfl]
  have hx1 : st1.ws x = some wx := by
    rw [hst1, updW_ws, if_neg hxg]
    exact hx
  have h2x : (setParent st1 x (some g)).ws x = some { wx with parent := some g } :=
    setParent_ws_self st1 x (some g) wx hx1
  rw [h2x]
  dsimp only
  set st2 := setParent st1 x (some g) with hst2
  have h2g : st2.ws g = some w1 := by
    rw [hst2, setParent_ws_other st1 x (some g) g (fun h => hxg h.symm)]
    exact ha1
  have h2old : st2.ws old = some wold := by
    rw [hst2, setParent_ws_other st1 x (some g) old holdx, hst1, updW_ws, if_neg holdg]
    exact holdw
  have h2n : st2.ngs wc = some ⟨.group ncs, np, nd⟩ := by
    rw [hst2, setParent_ngs_other st1 x (some g) wc wx hx1 (Ne.symm hcc), hst1, updW_ngs]
    exact hn
  have hremove : ngRemoveControl st2 wc k
      = updNg st2 wc ⟨.group (ncs.filter fun p => p.1 != k), np, nd⟩ := by
    unfold ngRemoveControl
    rw [h2n]
  set stR := updNg st2 wc ⟨.group (ncs.filter fun p => p.1 != k), np, nd⟩ with hstR
  have hRn : stR.ngs wc = some ⟨.group (ncs.filter fun p => p.1 != k), np, nd⟩ := by
    rw [hstR, updNg_ngs, if_pos rfl]
  have hregister : ngRegisterControl stR wc k wx.ctrl
      = ngSetParent
          (updNg stR wc ⟨.group ((ncs.filter fun p => p.1 != k) ++ [(k, wx.ctrl)]), np, nd⟩)
          wx.ctrl (some wc) := by
    unfold ngRegisterControl
    rw [hRn]
    dsimp only
    rw [lookup_filterKey]
    rfl
  have hfinal : ngSetControl st2 wc k wx.ctrl
      = ngSetParent
          (updNg stR wc ⟨.group ((ncs.filter fun p => p.1 != k) ++ [(k, wx.ctrl)]), np, nd⟩)
          wx.ctrl (some wc) := by
    unfold ngSetControl
    rw [hremove]
    exact hregister
  rw [hfinal]
  have hkmem : k ∈ children.map Prod.fst :=
    mem_keys_of_lookup_isSome k children (by rw [hold]; rfl)
  refine ⟨⟨w1, (children.filter fun p => p.1 != k) ++ [(k, x)], ?_, rfl, ?_, ?_⟩, ?_, ?_, ?_⟩
  · rw [ngSetParent_ws, updNg_ws, hstR, updNg_ws]
    exact h2g
  · rw [lookup_append_none _ _ _ (lookup_filterKey k children)]
    simp
  · intro s
    simp only [List.map_append, List.mem_append, List.map_cons, List.map_nil,
      List.mem_cons, List.not_mem_nil, or_false]
    constructor
    · rintro (h | h)
      · obtain ⟨p, hp, hps⟩ := List.mem_map.1 h
        exact hps ▸ List.mem_map.2 ⟨p, (List.mem_filter.1 hp).1, rfl⟩
      · exact h ▸ hkmem
    · intro hs
      by_cases hsk : s = k
      · exact Or.inr hsk
      · obtain ⟨p, hp, hps⟩ := List.mem_map.1 hs
        exact Or.inl (List.mem_map.2
          ⟨p, List.mem_filter.2 ⟨hp, bne_iff_ne.2 fun hh => hsk (hps.symm.trans hh)⟩, hps⟩)
  · rw [ngSetParent_ws, updNg_ws, hstR, updNg_ws]
    exact h2x
  · refine ⟨⟨.group ((ncs.filter fun p => p.1 != k) ++ [(k, wx.ctrl)]), np, nd⟩,
      (ncs.filter fun p => p.1 != k) ++ [(k, wx.ctrl)], ?_, rfl, ?_⟩
    · rw [ngSetParent_ngs_other _ _ _ _ (Ne.symm hcc), updNg_ngs, if_pos rfl]
    · rw [lookup_append_none _ _ _ (lookup_filterKey k ncs)]
      simp
  · rw [ngSetParent_ws, updNg_ws, hstR, updNg_ws]
    exact h2old

theorem C3_setControl_replaces_without_detaching_witness :
    (∃ w2 children2, (TypedFormGroup.setControl stDemo3 3 "a" 2).ws 3 = some w2
      ∧ w2.kind = .group children2
      ∧ children2.lookup "a" = some 2
      ∧ ∀ s, s ∈ children2.map Prod.fst
          ↔ s ∈ ([("a", 0), ("b", 1)] : List (String × WId)).map Prod.fst)
    ∧ (TypedFormGroup.setControl stDemo3 3 "a" 2).ws 2 = some ⟨.control, some 3, 2⟩
    ∧ (∃ n2 ncs2, (TypedFormGroup.setControl stDemo3 3 "a" 2).ngs 3 = some n2
        ∧ n2.kind = .group ncs2 ∧ ncs2.lookup "a" = some 2)
    ∧ (TypedFormGroup.setControl stDemo3 3 "a" 2).ws 0 = some ⟨.control, some 3, 0⟩ :=
  C3_setControl_replaces_without_detaching stDemo3 3 "a" 2 0
    ⟨.group [("a", 0), ("b", 1)], none, 3⟩ ⟨.control, none, 2⟩ ⟨.control, some 3, 0⟩
    [("a", 0), ("b", 1)] ⟨.group [("a", 0), ("b", 1)], none, false⟩ [("a", 0), ("b", 1)]
    rfl rfl rfl rfl rfl (by decide) (by decide) (by decide) rfl rfl (by decide)
